import Mathlib

/-!
Verification of the generation-orchestration core of the `fractal` repository.

The definitions below are a shallow embedding of the TypeScript sources:

* `src/src/services/cache.ts` — `CacheService`, a bounded `Map`-backed
  response cache.  A JavaScript `Map` iterates in insertion order, an
  existing key keeps its position on `set`, and `get` does not reorder
  entries; we model it as an association list in insertion order.
* `src/src/services/llm.ts` — `LLMService.generateWebsite`, modelled as a
  function of an environment that provides the collaborators
  (provider validation, prompt building, the backend completion call).
* `src/src/main/services/streaming-service.ts` —
  `StreamingService.streamWebsite`, modelled as a function from the
  observable event sequences of the two provider stream views to the list
  of emitted chunks plus the final outcome.
* the renderer's `BrowserUI.parseAndUpdateContent` /
  `extractHTMLFromContent` — incremental extraction of reasoning/document
  sections from the accumulated buffer, with the regex operations of the
  source modelled over `List Char`.
-/

/-! ## Ordered map model of a JavaScript `Map` (insertion order) -/

namespace JsMap

variable {α : Type}

/-- `Map.get`: value of the first (unique) entry with the given key. -/
def mapGet : List (String × α) → String → Option α
  | [], _ => none
  | (k', v') :: rest, k => if k' = k then some v' else mapGet rest k

/-- `Map.set`: replace the entry in place if the key is present, otherwise
append a new entry at the end (insertion order). -/
def mapSet : List (String × α) → String → α → List (String × α)
  | [], k, v => [(k, v)]
  | (k', v') :: rest, k, v =>
    if k' = k then (k, v) :: rest else (k', v') :: mapSet rest k v

/-- `Map.delete`: remove the first (unique) entry with the given key. -/
def mapDelete : List (String × α) → String → List (String × α)
  | [], _ => []
  | (k', v') :: rest, k => if k' = k then rest else (k', v') :: mapDelete rest k

/-- `Map.has`. -/
def containsKey : List (String × α) → String → Bool
  | [], _ => false
  | (k', _) :: rest, k => if k' = k then true else containsKey rest k

end JsMap

/-! ## `CacheService` (src/src/services/cache.ts) -/

/-- `PERFORMANCE_CONSTANTS.MAX_CACHE_SIZE` from `src/src/shared/constants.ts`. -/
def MAX_CACHE_SIZE : Nat := 100

/-- `CacheService`: `private cache: Map<string, AIResponse>`; the value type
is kept as a parameter since no cache operation inspects the stored value. -/
structure CacheService (α : Type) where
  cache : List (String × α)

namespace CacheService

variable {α : Type}

/-- The freshly constructed service (`new CacheService()`). -/
def init : CacheService α := ⟨[]⟩

/-- `CacheService.get`: `this.cache.get(key)` (logging aside, the cache is
not mutated and entries are not reordered by a read). -/
def get (c : CacheService α) (key : String) : Option α :=
  JsMap.mapGet c.cache key

/-- `CacheService.set`: when `this.cache.size >= MAX_CACHE_SIZE`, delete the
entry of `this.cache.keys().next().value` (the earliest-inserted key), then
`this.cache.set(key, response)`. -/
def set (c : CacheService α) (key : String) (response : α) : CacheService α :=
  let afterEvict :=
    if MAX_CACHE_SIZE ≤ c.cache.length then
      match c.cache.head? with
      | some firstEntry => JsMap.mapDelete c.cache firstEntry.1
      | none => c.cache
    else c.cache
  ⟨JsMap.mapSet afterEvict key response⟩

/-- `CacheService.has`. -/
def has (c : CacheService α) (key : String) : Bool :=
  JsMap.containsKey c.cache key

/-- `CacheService.getSize`. -/
def getSize (c : CacheService α) : Nat := c.cache.length

/-- `CacheService.isFull`: `this.cache.size >= PERFORMANCE_CONSTANTS.MAX_CACHE_SIZE`. -/
def isFull (c : CacheService α) : Bool :=
  MAX_CACHE_SIZE ≤ c.cache.length

/-- `CacheService.clear`. -/
def clear (_c : CacheService α) : CacheService α := ⟨[]⟩

/-- Well-formedness: a JavaScript `Map` has pairwise distinct keys; every
cache reachable from `new CacheService()` by the operations above has this
property. -/
def WF (c : CacheService α) : Prop := (c.cache.map Prod.fst).Nodup

/-- Folding `set` over a list of key/value pairs, in order. -/
def insertAll (c : CacheService α) (kvs : List (String × α)) : CacheService α :=
  kvs.foldl (fun acc kv => acc.set kv.1 kv.2) c

end CacheService

/-! ## Cache keys (`CacheService.generateCacheKey`) -/

/-- A JSON value as it can appear in the `options` object of a request
(`{temperature?: number, maxTokens?: number}` and similar); the exact value
grammar beyond numbers and plain strings is irrelevant to the key claims. -/
inductive JsonValue
  | num (n : Int)
  | str (s : String)
  deriving DecidableEq

/-- `JSON.stringify` of a primitive value (string escaping is not modelled;
no input below requires it). -/
def jsonStringifyValue : JsonValue → String
  | .num n => toString n
  | .str s => "\"" ++ s ++ "\""

/-- `JSON.stringify` of an object: JavaScript serializes the properties in
insertion order. -/
def jsonStringifyObject (props : List (String × JsonValue)) : String :=
  "\x7b" ++ String.intercalate ","
    (props.map fun p => "\"" ++ p.1 ++ "\":" ++ jsonStringifyValue p.2) ++ "\x7d"

/-- `CacheService.generateCacheKey`:
`` `${url}:${provider}:${JSON.stringify(options)}` ``. -/
def generateCacheKey (url provider : String) (options : List (String × JsonValue)) : String :=
  url ++ ":" ++ provider ++ ":" ++ jsonStringifyObject options

/-! ## Error taxonomy (src/src/shared/types.ts, src/src/shared/constants.ts) -/

/-- `ERROR_CODES.CONTENT_GENERATION_FAILED`. -/
def CONTENT_GENERATION_FAILED : String := "CONTENT_GENERATION_FAILED"

/-- `ERROR_CODES.API_KEY_MISSING`. -/
def API_KEY_MISSING : String := "API_KEY_MISSING"

/-- `AIError extends Error` with `code` and optional `provider`. -/
structure AIError where
  message : String
  code : String
  provider : Option String := none
  deriving DecidableEq

/-- The registry record resolved for a provider id
(`validateProvider` returns the `AIProvider` entry). -/
structure AIProviderRec where
  id : String
  model : String
  deriving DecidableEq

/-- `AIResponse` as constructed by `LLMService.generateWebsite`
(`metadata: {tokensUsed, responseTime}` on this path). -/
structure AIResponse where
  content : String
  provider : String
  model : String
  timestamp : Nat
  tokensUsed : Option Nat
  responseTime : Nat
  deriving DecidableEq

/-! ## `LLMService.generateWebsite` (src/src/services/llm.ts) -/

/-- Result of the backend `generateText` call:
`result.text` and `result.usage?.totalTokens`. -/
structure GenTextResult where
  text : String
  usageTotalTokens : Option Nat
  deriving DecidableEq

/-- The collaborators of `generateWebsite`, treated as an environment:
`validateProvider` may throw a typed error, `generatePrompt` is the opaque
prompt builder, and `generateText` is the backend completion call, which
either throws (with a message) or returns a result.  The temperature and
max-token defaulting (`options.temperature || 0.7`,
`options.maxTokens || 4000`) happens inside the backend call arguments and
is absorbed into `generateText`, which receives the raw options.
`startTime`/`endTime` model the `Date.now()` readings around the call. -/
structure GenEnv where
  validateProvider : String → Except AIError AIProviderRec
  generatePrompt : String → String
  generateText : String → List (String × JsonValue) → Except String GenTextResult
  startTime : Nat
  endTime : Nat

/-- `LLMService.generateWebsite`, returning the outcome together with the
cache state after the call.  The cache lookup comes first; on a hit the
cached response is returned at once.  On a miss the provider is validated
(outside the `try`, so its error propagates unwrapped), the prompt is built,
the backend is called; a backend exception is wrapped as an `AIError` with
code `CONTENT_GENERATION_FAILED`, the provider id and the original message;
on success the response is constructed, stored with `cacheService.set`, and
returned. -/
def generateWebsite (env : GenEnv) (cache : CacheService AIResponse)
    (url provider : String) (options : List (String × JsonValue)) :
    Except AIError AIResponse × CacheService AIResponse :=
  let cacheKey := generateCacheKey url provider options
  match cache.get cacheKey with
  | some cached => (.ok cached, cache)
  | none =>
    match env.validateProvider provider with
    | .error e => (.error e, cache)
    | .ok aiProvider =>
      let prompt := env.generatePrompt url
      match env.generateText prompt options with
      | .error msg =>
        (.error ⟨"Failed to generate content: " ++ msg,
                 CONTENT_GENERATION_FAILED, some provider⟩, cache)
      | .ok result =>
        let response : AIResponse :=
          { content := result.text
            provider := aiProvider.id
            model := aiProvider.model
            timestamp := env.endTime
            tokensUsed := result.usageTotalTokens
            responseTime := env.endTime - env.startTime }
        (.ok response, cache.set cacheKey response)

/-! ## `StreamingService.streamWebsite` (src/src/main/services/streaming-service.ts) -/

/-- Stream chunk metadata; `tokenSpeed` is a real-valued tokens/second
reading, modelled as a rational; `responseTime` is a `Date.now()`
difference. -/
structure ChunkMetadata where
  tokensUsed : Nat
  inputTokens : Nat
  outputTokens : Nat
  responseTime : Int
  tokenSpeed : ℚ
  deriving DecidableEq

/-- `AIStreamChunk`. -/
structure AIStreamChunk where
  content : String
  done : Bool
  metadata : ChunkMetadata
  deriving DecidableEq

/-- The mutable counters of `streamWebsite` that live across both loops. -/
structure StreamState where
  totalTokens : Nat
  inputTokens : Nat
  outputTokens : Nat
  chunkCount : Nat
  hasReceivedContent : Bool
  lastChunkTime : Nat
  lastOutputTokens : Nat
  totalSpeedMeasurements : Nat
  cumulativeSpeed : ℚ
  deriving DecidableEq

/-- Usage totals optionally carried by a `finish` event
(`chunk.totalUsage`). -/
structure Usage where
  inputTokens : Option Nat
  outputTokens : Option Nat
  totalTokens : Option Nat
  deriving DecidableEq

/-- One element of `stream.fullStream`.  A `textDelta` records the
`Date.now()` reading observed while it is processed; `finish` and `error`
events do not read the clock. -/
inductive FullStreamPart
  | textDelta (text : String) (time : Nat)
  | finish (totalUsage : Option Usage)
  | errorEvent
  | other
  deriving DecidableEq

/-- JavaScript `x || d` on `number | undefined`: `0` and `undefined` are
falsy, so a zero or absent value falls back to the default. -/
def jsOr (x : Option Nat) (d : Nat) : Nat :=
  match x with
  | some n => if n = 0 then d else n
  | none => d

/-- Processing of one text delta (shared verbatim between the `fullStream`
loop and the `textStream` fallback loop): a non-empty delta adds
`ceil(length / 4)` output tokens, measures the instantaneous speed over the
wall-clock interval since the previous non-empty delta, accumulates it into
the running average when positive, and yields one `done=false` chunk; an
empty delta leaves all counters (except `chunkCount`, handled by the
caller) unchanged and yields nothing.  `deltaSpeed` is the instantaneous
speed: (output tokens added since the previous non-empty delta) divided by
the wall-clock seconds since it, and 0 when no time has passed. -/
def deltaSpeed (st : StreamState) (deltaTokens : Nat) (time : Nat) : ℚ :=
  let timeSince : ℚ := ((time : ℚ) - (st.lastChunkTime : ℚ)) / 1000
  let tokensSince : ℚ := ((st.outputTokens + deltaTokens : Nat) : ℚ) - (st.lastOutputTokens : ℚ)
  if 0 < timeSince then tokensSince / timeSince else 0

def processDelta (startTime : Nat) (st : StreamState) (text : String) (time : Nat) :
    StreamState × List AIStreamChunk :=
  if 0 < text.length then
    let deltaTokens := (text.length + 3) / 4
    let outputTokens := st.outputTokens + deltaTokens
    let totalTokens := st.inputTokens + outputTokens
    let tokenSpeed : ℚ := deltaSpeed st deltaTokens time
    let st' : StreamState :=
      { st with
        outputTokens := outputTokens
        totalTokens := totalTokens
        hasReceivedContent := true
        totalSpeedMeasurements :=
          if 0 < tokenSpeed then st.totalSpeedMeasurements + 1 else st.totalSpeedMeasurements
        cumulativeSpeed :=
          if 0 < tokenSpeed then st.cumulativeSpeed + tokenSpeed else st.cumulativeSpeed
        lastChunkTime := time
        lastOutputTokens := outputTokens }
    (st', [{ content := text
             done := false
             metadata :=
               { tokensUsed := totalTokens
                 inputTokens := st.inputTokens
                 outputTokens := outputTokens
                 responseTime := (time : Int) - (startTime : Int)
                 tokenSpeed := tokenSpeed } }])
  else
    (st, [])

/-- Processing of a `finish` event: usage totals, when present, override
the running estimates through JavaScript `||` (so a zero or absent field
keeps the estimate, and an absent or zero `totalTokens` is recomputed from
the other two). -/
def processFinish (st : StreamState) (totalUsage : Option Usage) : StreamState :=
  match totalUsage with
  | some u =>
    let inputTokens := jsOr u.inputTokens st.inputTokens
    let outputTokens := jsOr u.outputTokens st.outputTokens
    let totalTokens := jsOr u.totalTokens (inputTokens + outputTokens)
    { st with inputTokens := inputTokens, outputTokens := outputTokens,
              totalTokens := totalTokens }
  | none => st

/-- How the `for await (const chunk of stream.fullStream)` loop ended:
a `finish` event breaks out normally, an `error` event throws an `AIError`
from inside the loop body, and otherwise the event sequence was exhausted. -/
inductive FullExit
  | finishedExit
  | erroredExit
  | exhausted
  deriving DecidableEq

/-- Result of consuming the full event stream. -/
structure FullRunOut where
  state : StreamState
  chunks : List AIStreamChunk
  exit : FullExit
  deriving DecidableEq

/-- The `fullStream` loop.  `chunkCount` is incremented for every event;
`text-delta` events go through `processDelta`; `finish` updates the token
counts from usage and breaks; `error` throws; other tags are ignored. -/
def runFull (startTime : Nat) (st : StreamState) : List FullStreamPart → FullRunOut
  | [] => ⟨st, [], .exhausted⟩
  | part :: rest =>
    let st1 := { st with chunkCount := st.chunkCount + 1 }
    match part with
    | .textDelta text time =>
      let out := processDelta startTime st1 text time
      let restOut := runFull startTime out.1 rest
      ⟨restOut.state, out.2 ++ restOut.chunks, restOut.exit⟩
    | .finish totalUsage => ⟨processFinish st1 totalUsage, [], .finishedExit⟩
    | .errorEvent => ⟨st1, [], .erroredExit⟩
    | .other => runFull startTime st1 rest

/-- Result of consuming the text-only fallback stream. -/
structure TextRunOut where
  state : StreamState
  chunks : List AIStreamChunk
  deriving DecidableEq

/-- The `textStream` fallback loop: each chunk is a plain string delta and
is processed exactly like a `text-delta` event. -/
def runText (startTime : Nat) (st : StreamState) : List (String × Nat) → TextRunOut
  | [] => ⟨st, []⟩
  | (text, time) :: rest =>
    let st1 := { st with chunkCount := st.chunkCount + 1 }
    let out := processDelta startTime st1 text time
    let restOut := runText startTime out.1 rest
    ⟨restOut.state, out.2 ++ restOut.chunks⟩

/-- The environment of one `streamWebsite` call: whether any provider is
registered, the result of `validateProvider`, the observable event sequence
of `stream.fullStream` (with `fullStreamFails` recording whether iterating
it raises after those events), the observable delta sequence of
`stream.textStream` (with `textStreamFails` and the raised message), and
the `Date.now()` readings at the start of the call and at the terminal
chunk. -/
structure StreamEnv where
  hasProviders : Bool
  validateProvider : Except AIError AIProviderRec
  fullParts : List FullStreamPart
  fullStreamFails : Bool
  textParts : List (String × Nat)
  textStreamFails : Bool
  textFailMsg : String
  startTime : Nat
  endTime : Nat

/-- The counters as initialized before the loops; input tokens are
estimated up front as `Math.ceil(prompt.length / 4)`. -/
def initState (env : StreamEnv) (prompt : String) : StreamState :=
  { totalTokens := 0
    inputTokens := (prompt.length + 3) / 4
    outputTokens := 0
    chunkCount := 0
    hasReceivedContent := false
    lastChunkTime := env.startTime
    lastOutputTokens := 0
    totalSpeedMeasurements := 0
    cumulativeSpeed := 0 }

/-- The terminal chunk: `done=true`, empty content, the accumulated token
counts, and the arithmetic mean of the positive instantaneous speeds (0
when none was recorded). -/
def finalChunk (env : StreamEnv) (st : StreamState) : AIStreamChunk :=
  { content := ""
    done := true
    metadata :=
      { tokensUsed := st.totalTokens
        inputTokens := st.inputTokens
        outputTokens := st.outputTokens
        responseTime := (env.endTime : Int) - (env.startTime : Int)
        tokenSpeed :=
          if 0 < st.totalSpeedMeasurements then
            st.cumulativeSpeed / (st.totalSpeedMeasurements : ℚ)
          else 0 } }

/-- `StreamingService.streamWebsite` as a function from the environment to
the list of chunks the async generator yields, paired with `none` when it
returns normally or `some e` when it throws `e`.  The provider checks fail
fast before anything is yielded.  Any failure while consuming
`stream.fullStream` — including the `AIError` thrown by the `error`-event
branch — is caught by the inner `catch`, which falls back to consuming
`stream.textStream` with the counters accumulated so far.  A failure of the
fallback stream itself reaches the outer `catch` and is wrapped as an
`AIError` with code `CONTENT_GENERATION_FAILED` and the provider id; in
that case no terminal chunk is emitted.  Otherwise exactly one terminal
`done=true` chunk is appended.  `fullAborted` is the condition under which
the inner catch fires: the loop threw (an `error` event) or the iterator
itself failed, as opposed to a normal `finish` break or a clean end. -/
def fullAborted (env : StreamEnv) (prompt : String) : Bool :=
  match (runFull env.startTime (initState env prompt) env.fullParts).exit with
  | .finishedExit => false
  | .erroredExit => true
  | .exhausted => env.fullStreamFails

def streamWebsite (env : StreamEnv) (provider : String) (prompt : String) :
    List AIStreamChunk × Option AIError :=
  if env.hasProviders = false then
    ([], some ⟨"No AI providers configured. Please set up API keys.", API_KEY_MISSING, none⟩)
  else
    match env.validateProvider with
    | .error e => ([], some e)
    | .ok _ =>
      let fullOut := runFull env.startTime (initState env prompt) env.fullParts
      if fullAborted env prompt then
        let textOut := runText env.startTime fullOut.state env.textParts
        if env.textStreamFails then
          (fullOut.chunks ++ textOut.chunks,
           some ⟨"Failed to stream content: " ++ env.textFailMsg,
                 CONTENT_GENERATION_FAILED, some provider⟩)
        else
          (fullOut.chunks ++ textOut.chunks ++ [finalChunk env textOut.state], none)
      else
        (fullOut.chunks ++ [finalChunk env fullOut.state], none)

/-! ## Incremental content extraction (renderer `BrowserUI`) -/

/-- Characters treated as whitespace by JavaScript `String.prototype.trim`
(the ASCII subset; no input below contains the further Unicode space
characters). -/
def isJsWS (c : Char) : Bool :=
  c = ' ' || c = '\t' || c = '\n' || c = '\r' || c = '\x0b' || c = '\x0c'

/-- JavaScript `s.trim()`. -/
def jsTrim (s : List Char) : List Char :=
  ((s.dropWhile isJsWS).reverse.dropWhile isJsWS).reverse

/-- Index of the first occurrence of `pat` in `s` (leftmost match of a
literal pattern, as a regex engine finds it). -/
def findFrom (pat : List Char) : List Char → Option Nat
  | [] => if pat = [] then some 0 else none
  | a :: rest =>
    if List.isPrefixOf pat (a :: rest) then some 0
    else (findFrom pat rest).map (· + 1)

/-- JavaScript `s.includes(pat)` (case-sensitive). -/
def occurs (pat s : List Char) : Bool :=
  (findFrom pat s).isSome

/-- The span `[start, stop)` in `s` of the leftmost, shortest match of the
case-insensitive regex `openT[\s\S]*?closeT`: the searches run over the
lowercased text (the patterns below are given in lower case), exactly as a
non-greedy match finds the leftmost opening literal and the earliest
closing literal after it. -/
def matchSpan (openT closeT : List Char) (s : List Char) : Option (Nat × Nat) :=
  let ls := s.map Char.toLower
  match findFrom openT ls with
  | none => none
  | some i =>
    match findFrom closeT (ls.drop (i + openT.length)) with
    | none => none
    | some j => some (i, i + openT.length + j + closeT.length)

/-- The capture group of `openT([\s\S]*?)closeT` (original-case slice). -/
def matchInner (openT closeT : List Char) (s : List Char) : Option (List Char) :=
  match matchSpan openT closeT s with
  | none => none
  | some (i, e) => some ((s.drop (i + openT.length)).take (e - closeT.length - (i + openT.length)))

/-- The whole match `match[0]` of `openT[\s\S]*?closeT` (original-case slice). -/
def matchWhole (openT closeT : List Char) (s : List Char) : Option (List Char) :=
  match matchSpan openT closeT s with
  | none => none
  | some (i, e) => some ((s.drop i).take (e - i))

/-- JavaScript `s.replace(/openT[\s\S]*?closeT/gi, '')`: repeatedly delete
the leftmost closed region, scanning on from the end of each deleted
region.  The list length bounds the number of deletions, so it serves as
fuel. -/
def removeRegionsAux (openT closeT : List Char) : Nat → List Char → List Char
  | 0, s => s
  | fuel + 1, s =>
    match matchSpan openT closeT s with
    | none => s
    | some (i, e) => s.take i ++ removeRegionsAux openT closeT fuel (s.drop e)

/-- All closed `openT...closeT` regions removed (case-insensitive, global). -/
def removeRegions (openT closeT : List Char) (s : List Char) : List Char :=
  removeRegionsAux openT closeT s.length s

/-- `content.split('\n')`. -/
def splitOnChar (sep : Char) : List Char → List (List Char)
  | [] => [[]]
  | a :: rest =>
    match splitOnChar sep rest with
    | [] => [[a]]
    | cur :: more => if a = sep then [] :: cur :: more else (a :: cur) :: more

/-- Largest index of an element satisfying `p` (the source scans the line
array from the end for the last line containing a closing tag). -/
def lastIdxWith {α : Type} (p : α → Bool) (l : List α) : Option Nat :=
  match List.findIdx? p l.reverse with
  | none => none
  | some i => some (l.length - 1 - i)

/-- Whether a line looks like the start of an HTML document
(`line.startsWith('<!DOCTYPE') || line.startsWith('<html') ||
(line.startsWith('<') && line.includes('html') && line.includes('>'))`,
applied to the trimmed line). -/
def lineStartsHtml (line : List Char) : Bool :=
  let l := jsTrim line
  List.isPrefixOf "<!DOCTYPE".toList l || List.isPrefixOf "<html".toList l ||
    (List.isPrefixOf "<".toList l && occurs "html".toList l && occurs ">".toList l)

/-- The line-oriented fallback scan of `extractHTMLFromContent`: find the
first line beginning an HTML document; take lines up to the last line
containing `</html>` when one exists; otherwise keep all remaining lines
and, when the joined text is non-blank, append `\n</body>` and/or
`\n</html>` for opening tags that are present but unclosed. -/
def lineScan (cleaned : List Char) : List Char :=
  let lines := splitOnChar '\n' cleaned
  match List.findIdx? lineStartsHtml lines with
  | none => []
  | some hs =>
    let htmlLines := lines.drop hs
    match lastIdxWith (fun l => occurs "</html>".toList l) htmlLines with
    | some i => List.intercalate ['\n'] (htmlLines.take (i + 1))
    | none =>
      let extracted := List.intercalate ['\n'] htmlLines
      if jsTrim extracted = [] then extracted
      else
        let needsBodyClose :=
          occurs "<body".toList extracted && !occurs "</body>".toList extracted
        let needsHtmlClose :=
          (occurs "<html".toList extracted || occurs "<!DOCTYPE".toList extracted)
            && !occurs "</html>".toList extracted
        let withBody :=
          if needsBodyClose then extracted ++ "\n</body>".toList else extracted
        if needsHtmlClose then withBody ++ "\n</html>".toList else withBody

/-- `BrowserUI.extractHTMLFromContent`: strip closed
`<thinking>`/`<reasoning>` regions, trim, then try in order a complete
`<!DOCTYPE html>…</html>` span, a complete `<html>…</html>` span, a fenced
block labelled `html`, a generic fenced block containing a doctype or html
tag, and finally the line-oriented scan; an empty result signals that no
structure was found yet. -/
def extractHTMLFromContent (content : List Char) : List Char :=
  let c1 := removeRegions "<thinking>".toList "</thinking>".toList content
  let c2 := removeRegions "<reasoning>".toList "</reasoning>".toList c1
  let cleaned := jsTrim c2
  match matchWhole "<!doctype html>".toList "</html>".toList cleaned with
  | some whole => whole
  | none =>
  match matchWhole "<html".toList "</html>".toList cleaned with
  | some whole => whole
  | none =>
  match matchInner "```html".toList "```".toList cleaned with
  | some inner => jsTrim inner
  | none =>
  let genericBlock :=
    match matchInner "```".toList "```".toList cleaned with
    | some inner =>
      let blockContent := jsTrim inner
      if occurs "<!DOCTYPE html>".toList blockContent
          || occurs "<html".toList blockContent then
        some blockContent
      else none
    | none => none
  match genericBlock with
  | some blockContent => blockContent
  | none => lineScan cleaned

/-- `BrowserUI.parseAndUpdateContent` as a pure function of the accumulated
stream buffer, returning the combined thought text and the document text.
A closed `<thinking>…</thinking>` and/or `<reasoning>…</reasoning>` region
contributes its trimmed inner text under a fixed label; a closed
`<code>…</code>` region yields its trimmed inner text as the document,
otherwise the fallback ladder of `extractHTMLFromContent` runs on the raw
buffer. -/
def parseAndUpdateContent (streamContent : List Char) : List Char × List Char :=
  let thinkingMatch := matchInner "<thinking>".toList "</thinking>".toList streamContent
  let reasoningMatch := matchInner "<reasoning>".toList "</reasoning>".toList streamContent
  let combinedThought :=
    (match thinkingMatch with
     | some t => "🤔 **Thinking**\n".toList ++ jsTrim t ++ "\n\n".toList
     | none => []) ++
    (match reasoningMatch with
     | some r => "💡 **Reasoning**\n".toList ++ jsTrim r
     | none => [])
  let codeContent :=
    match matchInner "<code>".toList "</code>".toList streamContent with
    | some inner => jsTrim inner
    | none => extractHTMLFromContent streamContent
  (combinedThought, codeContent)

/-! ## Specification-side helper definitions -/

/-- The positive `tokenSpeed` readings among a list of chunks (the
instantaneous speeds that the source counts into its running average). -/
def positiveSpeedsOf (chunks : List AIStreamChunk) : List ℚ :=
  (chunks.map fun c => c.metadata.tokenSpeed).filter fun q => decide (0 < q)

/-- Arithmetic mean, 0 for the empty list. -/
def meanQ (l : List ℚ) : ℚ :=
  if l.length = 0 then 0 else l.sum / (l.length : ℚ)

/-- Events of the full stream that neither finish nor abort the loop. -/
def isDeltaOrOther : FullStreamPart → Bool
  | .textDelta _ _ => true
  | .other => true
  | _ => false

/-- The `ceil(length / 4)` token counts of the non-empty text deltas of an
event list, in order (zero-length deltas contribute nothing). -/
def deltaTokenCounts : List FullStreamPart → List Nat
  | [] => []
  | .textDelta s _ :: rest =>
    if 0 < s.length then ((s.length + 3) / 4) :: deltaTokenCounts rest
    else deltaTokenCounts rest
  | _ :: rest => deltaTokenCounts rest

/-- Running partial sums starting from `acc`. -/
def partialSumsFrom (acc : Nat) : List Nat → List Nat
  | [] => []
  | x :: xs => (acc + x) :: partialSumsFrom (acc + x) xs

/-- A family of pairwise-distinct single-character cache keys, used for
concrete witnesses. -/
def wkey (i : Nat) : String := String.mk [Char.ofNat (256 + i)]

/-- A provider validation result used by concrete witness environments. -/
def okProvider : Except AIError AIProviderRec :=
  .ok ⟨"anthropic", "claude-sonnet-4"⟩

/-- Witness environment for the normal-completion streaming claims: two
non-empty deltas arriving one second apart, then the stream ends. -/
def envC4 : StreamEnv :=
  { hasProviders := true
    validateProvider := okProvider
    fullParts := [.textDelta "abcdefgh" 1000, .textDelta "wxyz" 2000]
    fullStreamFails := false
    textParts := []
    textStreamFails := false
    textFailMsg := ""
    startTime := 0
    endTime := 2500 }

/-- Counterexample environment for C3: the provider emits content and then
an `error` event on the full stream; the text-only fallback view is empty
and does not fail. -/
def envC3cex : StreamEnv :=
  { hasProviders := true
    validateProvider := okProvider
    fullParts := [.textDelta "abcdefgh" 1000, .errorEvent]
    fullStreamFails := false
    textParts := []
    textStreamFails := false
    textFailMsg := ""
    startTime := 0
    endTime := 2000 }

/-- Witness environment for the amended C3: content arrives, the full
stream then fails, and the fallback text stream delivers one more delta. -/
def envC3a : StreamEnv :=
  { hasProviders := true
    validateProvider := okProvider
    fullParts := [.textDelta "abcdefgh" 1000, .errorEvent]
    fullStreamFails := false
    textParts := [("mnop", 2000)]
    textStreamFails := false
    textFailMsg := ""
    startTime := 0
    endTime := 2500 }

/-- Witness environment for the amended C3, failing-fallback conjunct. -/
def envC3b : StreamEnv :=
  { hasProviders := true
    validateProvider := okProvider
    fullParts := [.textDelta "abcdefgh" 1000, .errorEvent]
    fullStreamFails := false
    textParts := []
    textStreamFails := true
    textFailMsg := "socket closed"
    startTime := 0
    endTime := 2500 }

/-- Counterexample environment for C5: the finish event carries usage
totals that are all zero; JavaScript `||` treats them as absent. -/
def envC5cex : StreamEnv :=
  { hasProviders := true
    validateProvider := okProvider
    fullParts := [.finish (some ⟨some 0, some 0, some 0⟩)]
    fullStreamFails := false
    textParts := []
    textStreamFails := false
    textFailMsg := ""
    startTime := 0
    endTime := 100 }

/-- Witness environment for the amended C5, estimate conjunct: deltas of
length 40, 80 and 0 (the spec's scenario). -/
def envC5a : StreamEnv :=
  { hasProviders := true
    validateProvider := okProvider
    fullParts := [.textDelta (String.mk (List.replicate 40 'a')) 1000,
                  .textDelta (String.mk (List.replicate 80 'b')) 2000,
                  .textDelta "" 3000]
    fullStreamFails := false
    textParts := []
    textStreamFails := false
    textFailMsg := ""
    startTime := 0
    endTime := 4000 }

/-- Witness environment for the amended C5, usage-override conjunct. -/
def envC5b : StreamEnv :=
  { hasProviders := true
    validateProvider := okProvider
    fullParts := [.textDelta "abcdefgh" 1000, .finish (some ⟨some 11, some 22, some 33⟩)]
    fullStreamFails := false
    textParts := []
    textStreamFails := false
    textFailMsg := ""
    startTime := 0
    endTime := 2000 }

/-- A cached response used in concrete witnesses. -/
def respA : AIResponse :=
  { content := "<html><body>cached</body></html>"
    provider := "anthropic"
    model := "claude-sonnet-4"
    timestamp := 5
    tokensUsed := some 55
    responseTime := 3 }

/-- Witness environment for C8: even a validator that always throws and a
backend that always throws are never consulted on a cache hit. -/
def envC8 : GenEnv :=
  { validateProvider := fun p => .error ⟨"Provider " ++ p ++ " not found", "AI_PROVIDER_ERROR", some p⟩
    generatePrompt := fun url => "Generate a website for " ++ url
    generateText := fun _ _ => .error "network down"
    startTime := 10
    endTime := 20 }

/-- Witness environment for C9: validation succeeds and the backend call
throws with a message. -/
def envC9 : GenEnv :=
  { validateProvider := fun _ => .ok ⟨"openai", "gpt-5"⟩
    generatePrompt := fun url => "Generate a website for " ++ url
    generateText := fun _ _ => .error "rate limited"
    startTime := 10
    endTime := 20 }

/-! ## Lemmas about the ordered-map model -/

namespace JsMap

variable {α : Type}

theorem containsKey_append (l1 l2 : List (String × α)) (k : String) :
    containsKey (l1 ++ l2) k = (containsKey l1 k || containsKey l2 k) := by
  induction l1 with
  | nil => simp [containsKey]
  | cons p rest ih =>
    obtain ⟨k', v'⟩ := p
    by_cases hk : k' = k <;> simp [containsKey, hk, ih]

theorem mapGet_eq_none_of_not_contains {l : List (String × α)} {k : String}
    (h : containsKey l k = false) : mapGet l k = none := by
  induction l with
  | nil => rfl
  | cons p rest ih =>
    obtain ⟨k', v'⟩ := p
    by_cases hk : k' = k
    · simp [containsKey, hk] at h
    · simp only [mapGet, if_neg hk]
      exact ih (by simpa [containsKey, hk] using h)

theorem mapGet_append (l1 l2 : List (String × α)) (k : String) :
    mapGet (l1 ++ l2) k =
      match mapGet l1 k with
      | some v => some v
      | none => mapGet l2 k := by
  induction l1 with
  | nil => simp [mapGet]
  | cons p rest ih =>
    obtain ⟨k', v'⟩ := p
    by_cases hk : k' = k <;> simp [mapGet, hk, ih]

theorem mapSet_of_not_contains {l : List (String × α)} {k : String}
    (h : containsKey l k = false) (v : α) : mapSet l k v = l ++ [(k, v)] := by
  induction l with
  | nil => rfl
  | cons p rest ih =>
    obtain ⟨k', v'⟩ := p
    by_cases hk : k' = k
    · simp [containsKey, hk] at h
    · simp only [mapSet, if_neg hk, List.cons_append, List.cons.injEq, true_and]
      exact ih (by simpa [containsKey, hk] using h)

theorem length_mapSet_of_contains {l : List (String × α)} {k : String}
    (h : containsKey l k = true) (v : α) : (mapSet l k v).length = l.length := by
  induction l with
  | nil => simp [containsKey] at h
  | cons p rest ih =>
    obtain ⟨k', v'⟩ := p
    by_cases hk : k' = k
    · simp [mapSet, hk]
    · simp only [mapSet, if_neg hk, List.length_cons]
      rw [ih (by simpa [containsKey, hk] using h)]

theorem length_mapSet_le (l : List (String × α)) (k : String) (v : α) :
    (mapSet l k v).length ≤ l.length + 1 := by
  induction l with
  | nil => simp [mapSet]
  | cons p rest ih =>
    obtain ⟨k', v'⟩ := p
    by_cases hk : k' = k
    · simp [mapSet, hk]
    · simp only [mapSet, if_neg hk, List.length_cons]
      omega

theorem mapDelete_cons_self (k : String) (v : α) (t : List (String × α)) :
    mapDelete ((k, v) :: t) k = t := by
  simp [mapDelete]

theorem containsKey_mapSet (l : List (String × α)) (k k' : String) (v : α) :
    containsKey (mapSet l k v) k' = (containsKey l k' || decide (k = k')) := by
  induction l with
  | nil => simp [mapSet, containsKey]
  | cons p rest ih =>
    obtain ⟨k1, v1⟩ := p
    by_cases h1 : k1 = k
    · subst h1
      by_cases h2 : k1 = k'
      · subst h2; simp [mapSet, containsKey]
      · simp [mapSet, containsKey, h2]
    · by_cases h2 : k1 = k'
      · subst h2; simp [mapSet, containsKey, h1]
      · simp [mapSet, containsKey, h1, h2, ih]

theorem containsKey_eq_false_of_not_mem_keys {l : List (String × α)} {k : String}
    (h : k ∉ l.map Prod.fst) : containsKey l k = false := by
  induction l with
  | nil => rfl
  | cons p rest ih =>
    have hne : p.1 ≠ k := fun e => h (by simp [e])
    simp only [containsKey, if_neg hne]
    exact ih (fun hm => h (by simp at hm ⊢; right; exact hm))

theorem mapGet_tagged (f : String → α) (ks : List String) (k : String) (h : k ∈ ks) :
    mapGet (ks.map fun x => (x, f x)) k = some (f k) := by
  induction ks with
  | nil => cases h
  | cons a rest ih =>
    by_cases hk : a = k
    · subst hk; simp [mapGet]
    · simp only [List.map_cons, mapGet, if_neg hk]
      exact ih (by cases h with
        | head => exact absurd rfl hk
        | tail _ h' => exact h')

theorem containsKey_tagged_eq_false (f : String → α) (ks : List String) (k : String)
    (h : k ∉ ks) : containsKey (ks.map fun x => (x, f x)) k = false := by
  induction ks with
  | nil => rfl
  | cons a rest ih =>
    have ha : a ≠ k := fun e => h (e ▸ List.mem_cons_self a rest)
    simp only [List.map_cons, containsKey, if_neg ha]
    exact ih (fun hm => h (List.mem_cons_of_mem a hm))

end JsMap

/-! ## Lemmas about `CacheService` -/

namespace CacheService

variable {α : Type}

theorem set_below_capacity (c : CacheService α) (k : String) (v : α)
    (hlen : c.cache.length < MAX_CACHE_SIZE)
    (hfresh : JsMap.containsKey c.cache k = false) :
    (c.set k v).cache = c.cache ++ [(k, v)] := by
  unfold CacheService.set
  rw [if_neg (by omega)]
  show JsMap.mapSet c.cache k v = c.cache ++ [(k, v)]
  exact JsMap.mapSet_of_not_contains hfresh v

theorem insertAll_fresh (kvs : List (String × α)) (c : CacheService α)
    (hfit : c.cache.length + kvs.length ≤ MAX_CACHE_SIZE)
    (hnd : (kvs.map Prod.fst).Nodup)
    (hfresh : ∀ p ∈ kvs, JsMap.containsKey c.cache p.1 = false) :
    (CacheService.insertAll c kvs).cache = c.cache ++ kvs := by
  induction kvs generalizing c with
  | nil => simp [CacheService.insertAll]
  | cons kv rest ih =>
    obtain ⟨k, v⟩ := kv
    simp only [List.length_cons] at hfit
    have h1 : (c.set k v).cache = c.cache ++ [(k, v)] :=
      set_below_capacity c k v (by omega) (hfresh (k, v) (List.mem_cons_self _ _))
    have hstep : CacheService.insertAll c ((k, v) :: rest)
        = CacheService.insertAll (c.set k v) rest := rfl
    simp only [List.map_cons, List.nodup_cons] at hnd
    have hfresh' : ∀ p ∈ rest, JsMap.containsKey (c.set k v).cache p.1 = false := by
      intro p hp
      rw [h1, JsMap.containsKey_append]
      have hne : k ≠ p.1 := fun e => hnd.1 (e ▸ List.mem_map_of_mem Prod.fst hp)
      rw [hfresh p (List.mem_cons_of_mem _ hp)]
      simp [JsMap.containsKey, hne]
    have hfit' : (c.set k v).cache.length + rest.length ≤ MAX_CACHE_SIZE := by
      rw [h1]
      simp only [List.length_append, List.length_cons, List.length_nil]
      omega
    rw [hstep, ih (c.set k v) hfit' hnd.2 hfresh', h1, List.append_assoc]
    simp

theorem set_at_capacity_cache (k0 : String) (v0 : α) (t : List (String × α))
    (hlen : MAX_CACHE_SIZE ≤ ((k0, v0) :: t).length) (k : String) (v : α) :
    ((CacheService.mk ((k0, v0) :: t)).set k v).cache = JsMap.mapSet t k v := by
  unfold CacheService.set
  show JsMap.mapSet
      (if MAX_CACHE_SIZE ≤ ((k0, v0) :: t).length then
        match List.head? ((k0, v0) :: t) with
        | some firstEntry => JsMap.mapDelete ((k0, v0) :: t) firstEntry.1
        | none => (k0, v0) :: t
      else (k0, v0) :: t) k v = JsMap.mapSet t k v
  rw [if_pos hlen]
  show JsMap.mapSet (JsMap.mapDelete ((k0, v0) :: t) k0) k v = JsMap.mapSet t k v
  rw [JsMap.mapDelete_cons_self]

end CacheService

/-! ## Claim C1 — FIFO eviction at capacity -/

/-- C1: a `CacheService` holding its maximum of 100 entries evicts exactly
one entry on the next `set` of a fresh key — the earliest-inserted entry —
regardless of intervening reads: after inserting 100 distinct keys, the
first key can be read (`get` neither mutates nor reorders the map), and
inserting a 101st distinct key evicts precisely the first-inserted key
while every other entry survives and the size stays 100 (insertion-order
FIFO, not access-order LRU). -/
theorem claim_c1_cache_fifo_eviction {α : Type} (k0 kNew : String) (mids : List String)
    (f : String → α) (v : α)
    (hnd : (k0 :: (mids ++ [kNew])).Nodup) (hlen : mids.length = 99) :
    (CacheService.insertAll CacheService.init ((k0 :: mids).map fun k => (k, f k))).get k0
      = some (f k0) ∧
    ((CacheService.insertAll CacheService.init ((k0 :: mids).map fun k => (k, f k))).set kNew v).get k0
      = none ∧
    ((CacheService.insertAll CacheService.init ((k0 :: mids).map fun k => (k, f k))).set kNew v).get kNew
      = some v ∧
    (∀ k ∈ mids,
      ((CacheService.insertAll CacheService.init ((k0 :: mids).map fun k => (k, f k))).set kNew v).get k
        = some (f k)) ∧
    ((CacheService.insertAll CacheService.init ((k0 :: mids).map fun k => (k, f k))).set kNew v).getSize
      = 100 := by
  have hnd' := hnd
  rw [List.nodup_cons] at hnd'
  obtain ⟨hk0, hrest⟩ := hnd'
  rw [List.nodup_append] at hrest
  have hk0mids : k0 ∉ mids := fun h => hk0 (List.mem_append_left _ h)
  have hk0new : k0 ≠ kNew := fun h => hk0 (List.mem_append_right _ (by simp [h]))
  have hnewmids : kNew ∉ mids := fun h => hrest.2.2 h (by simp)
  have hkeys : (((k0 :: mids).map fun k => (k, f k)).map Prod.fst) = k0 :: mids := by
    simp [List.map_map, Function.comp_def]
  have hc : (CacheService.insertAll CacheService.init ((k0 :: mids).map fun k => (k, f k))).cache
      = (k0 :: mids).map fun k => (k, f k) := by
    have h := CacheService.insertAll_fresh ((k0 :: mids).map fun k => (k, f k))
      CacheService.init
      (by simp [CacheService.init, hlen, MAX_CACHE_SIZE])
      (by rw [hkeys]; exact List.nodup_cons.mpr ⟨hk0mids, hrest.1⟩)
      (fun p _ => rfl)
    simpa [CacheService.init] using h
  have hcacheEq : (CacheService.insertAll CacheService.init ((k0 :: mids).map fun k => (k, f k)))
      = CacheService.mk ((k0, f k0) :: mids.map fun k => (k, f k)) :=
    congrArg CacheService.mk hc
  have hfreshNew : JsMap.containsKey (mids.map fun k => (k, f k)) kNew = false :=
    JsMap.containsKey_tagged_eq_false f mids kNew hnewmids
  have hsetc : ((CacheService.insertAll CacheService.init
        ((k0 :: mids).map fun k => (k, f k))).set kNew v).cache
      = (mids.map fun k => (k, f k)) ++ [(kNew, v)] := by
    rw [hcacheEq, CacheService.set_at_capacity_cache _ _ _ (by simp [hlen, MAX_CACHE_SIZE])]
    exact JsMap.mapSet_of_not_contains hfreshNew v
  refine ⟨?_, ?_, ?_, ?_, ?_⟩
  · show JsMap.mapGet _ k0 = some (f k0)
    rw [hc]
    simp [JsMap.mapGet]
  · show JsMap.mapGet _ k0 = none
    rw [hsetc]
    refine JsMap.mapGet_eq_none_of_not_contains ?_
    rw [JsMap.containsKey_append,
        JsMap.containsKey_tagged_eq_false f mids k0 hk0mids]
    have hnk : kNew ≠ k0 := fun e => hk0new (Eq.symm e)
    simp [JsMap.containsKey, hnk]
  · show JsMap.mapGet _ kNew = some v
    rw [hsetc, JsMap.mapGet_append,
        JsMap.mapGet_eq_none_of_not_contains hfreshNew]
    simp [JsMap.mapGet]
  · intro k hk
    show JsMap.mapGet _ k = some (f k)
    rw [hsetc, JsMap.mapGet_append, JsMap.mapGet_tagged f mids k hk]
  · show (((CacheService.insertAll _ _).set kNew v).cache).length = 100
    rw [hsetc]
    simp [hlen]

/-- Witness for C1 at 101 concrete pairwise-distinct keys. -/
theorem claim_c1_cache_fifo_eviction_witness :
    ((wkey 0 :: (((List.range 99).map fun i => wkey (i + 1)) ++ [wkey 100])).Nodup ∧
      ((List.range 99).map fun i => wkey (i + 1)).length = 99) ∧
    ((CacheService.insertAll CacheService.init
        ((wkey 0 :: (List.range 99).map fun i => wkey (i + 1)).map fun k => (k, (0 : Nat)))).get (wkey 0)
      = some 0 ∧
    ((CacheService.insertAll CacheService.init
        ((wkey 0 :: (List.range 99).map fun i => wkey (i + 1)).map fun k => (k, (0 : Nat)))).set (wkey 100) 7).get (wkey 0)
      = none ∧
    ((CacheService.insertAll CacheService.init
        ((wkey 0 :: (List.range 99).map fun i => wkey (i + 1)).map fun k => (k, (0 : Nat)))).set (wkey 100) 7).get (wkey 100)
      = some 7 ∧
    (∀ k ∈ (List.range 99).map fun i => wkey (i + 1),
      ((CacheService.insertAll CacheService.init
          ((wkey 0 :: (List.range 99).map fun i => wkey (i + 1)).map fun k => (k, (0 : Nat)))).set (wkey 100) 7).get k
        = some 0) ∧
    ((CacheService.insertAll CacheService.init
        ((wkey 0 :: (List.range 99).map fun i => wkey (i + 1)).map fun k => (k, (0 : Nat)))).set (wkey 100) 7).getSize
      = 100) :=
  ⟨⟨by decide, by decide⟩,
   claim_c1_cache_fifo_eviction (wkey 0) (wkey 100) ((List.range 99).map fun i => wkey (i + 1))
     (fun _ => (0 : Nat)) 7 (by decide) (by decide)⟩

/-! ## Claim C10 — eviction happens even on overwrite at capacity -/

/-- C10: `set` on a cache holding 100 entries always deletes the current
earliest-inserted key before inserting — even when the key being written is
already present (so an overwrite at capacity evicts a possibly unrelated
entry and shrinks the cache to 99) — and `set` never takes a cache of at
most 100 entries above 100. -/
theorem claim_c10_capacity_eviction_invariant {α : Type} (k0 : String) (v0 : α)
    (t : List (String × α)) (k : String) (v : α)
    (hwf : CacheService.WF (CacheService.mk ((k0, v0) :: t)))
    (hlen : ((k0, v0) :: t).length = 100) :
    (k ≠ k0 → JsMap.containsKey ((CacheService.mk ((k0, v0) :: t)).set k v).cache k0 = false) ∧
    (k ≠ k0 → JsMap.containsKey ((k0, v0) :: t) k = true →
      ((CacheService.mk ((k0, v0) :: t)).set k v).getSize = 99) ∧
    (∀ d : CacheService α, d.getSize ≤ 100 → (d.set k v).getSize ≤ 100) := by
  have hcap : MAX_CACHE_SIZE ≤ ((k0, v0) :: t).length := by
    rw [hlen]
    simp [MAX_CACHE_SIZE]
  have hcache := CacheService.set_at_capacity_cache k0 v0 t hcap k v
  have hk0t : JsMap.containsKey t k0 = false := by
    refine JsMap.containsKey_eq_false_of_not_mem_keys ?_
    have := hwf
    unfold CacheService.WF at this
    simp only [List.map_cons, List.nodup_cons] at this
    exact this.1
  refine ⟨?_, ?_, ?_⟩
  · intro hne
    rw [hcache, JsMap.containsKey_mapSet, hk0t]
    simp [hne]
  · intro hne hmem
    have hkt : JsMap.containsKey t k = true := by
      have hne' : k0 ≠ k := fun e => hne (Eq.symm e)
      simpa [JsMap.containsKey, hne'] using hmem
    show (((CacheService.mk ((k0, v0) :: t)).set k v).cache).length = 99
    rw [hcache, JsMap.length_mapSet_of_contains hkt]
    simpa using hlen
  · intro d hd
    show ((d.set k v).cache).length ≤ 100
    unfold CacheService.set
    by_cases hfull : MAX_CACHE_SIZE ≤ d.cache.length
    · rw [if_pos hfull]
      cases hdc : d.cache with
      | nil => simp [hdc] at hfull; simp [MAX_CACHE_SIZE] at hfull
      | cons p rest =>
        show (JsMap.mapSet (JsMap.mapDelete (p :: rest) p.1) k v).length ≤ 100
        rw [show JsMap.mapDelete (p :: rest) p.1 = rest from by simp [JsMap.mapDelete]]
        have h1 := JsMap.length_mapSet_le rest k v
        have h2 : (p :: rest).length ≤ 100 := by
          rw [← hdc]
          exact hd
        simp only [List.length_cons] at h2
        omega
    · rw [if_neg hfull]
      have h1 := JsMap.length_mapSet_le d.cache k v
      simp only [MAX_CACHE_SIZE] at hfull
      have hd' : d.cache.length ≤ 99 := by omega
      show (JsMap.mapSet d.cache k v).length ≤ 100
      omega

/-- Witness for C10: a concrete 100-entry cache whose sixth key is
overwritten. -/
theorem claim_c10_capacity_eviction_invariant_witness :
    (CacheService.WF (CacheService.mk
        ((wkey 0, (0 : Nat)) :: (List.range 99).map fun i => (wkey (i + 1), 0))) ∧
      ((wkey 0, (0 : Nat)) :: (List.range 99).map fun i => (wkey (i + 1), 0)).length = 100) ∧
    ((wkey 5 ≠ wkey 0 → JsMap.containsKey ((CacheService.mk
        ((wkey 0, (0 : Nat)) :: (List.range 99).map fun i => (wkey (i + 1), 0))).set (wkey 5) 7).cache (wkey 0) = false) ∧
    (wkey 5 ≠ wkey 0 → JsMap.containsKey
        ((wkey 0, (0 : Nat)) :: (List.range 99).map fun i => (wkey (i + 1), 0)) (wkey 5) = true →
      ((CacheService.mk
        ((wkey 0, (0 : Nat)) :: (List.range 99).map fun i => (wkey (i + 1), 0))).set (wkey 5) 7).getSize = 99) ∧
    (∀ d : CacheService Nat, d.getSize ≤ 100 → (d.set (wkey 5) 7).getSize ≤ 100)) :=
  ⟨⟨by unfold CacheService.WF; decide, by decide⟩,
   claim_c10_capacity_eviction_invariant (wkey 0) 0 ((List.range 99).map fun i => (wkey (i + 1), 0))
     (wkey 5) 7 (by unfold CacheService.WF; decide) (by decide)⟩

/-! ## Claim C2 — cache keys and options-object property order -/

/-- C2 counterexample: `generateCacheKey` serializes the options object with
`JSON.stringify`, which writes properties in insertion order, so two
options objects holding the same property-value pairs in different orders
(a permutation of each other) yield different cache keys; the claimed
order-insensitivity fails. -/
theorem claim_c2_counterexample :
    List.Perm [("a", JsonValue.num 1), ("b", JsonValue.num 2)]
      [("b", JsonValue.num 2), ("a", JsonValue.num 1)] ∧
    generateCacheKey "example.com" "openai" [("a", JsonValue.num 1), ("b", JsonValue.num 2)] ≠
      generateCacheKey "example.com" "openai" [("b", JsonValue.num 2), ("a", JsonValue.num 1)] := by
  constructor
  · decide
  · decide

/-- C2 (amended): `generateCacheKey` is a deterministic function of
(url, provider, options): two options objects with the same JSON
serialization — in particular the same property-value pairs in the same
insertion order — always yield the same key; property order, however, does
affect the key because `JSON.stringify` serializes properties in insertion
order. -/
theorem claim_c2_key_deterministic (url provider : String)
    (o1 o2 : List (String × JsonValue))
    (h : jsonStringifyObject o1 = jsonStringifyObject o2) :
    generateCacheKey url provider o1 = generateCacheKey url provider o2 := by
  unfold generateCacheKey
  rw [h]

/-- Witness for the amended C2 at a concrete url, provider and options. -/
theorem claim_c2_key_deterministic_witness :
    jsonStringifyObject [("temperature", JsonValue.num 1), ("maxTokens", JsonValue.num 4000)]
      = jsonStringifyObject [("temperature", JsonValue.num 1), ("maxTokens", JsonValue.num 4000)] ∧
    generateCacheKey "example.com" "openai"
        [("temperature", JsonValue.num 1), ("maxTokens", JsonValue.num 4000)]
      = generateCacheKey "example.com" "openai"
        [("temperature", JsonValue.num 1), ("maxTokens", JsonValue.num 4000)] :=
  ⟨rfl, claim_c2_key_deterministic "example.com" "openai" _ _ rfl⟩

/-! ## Claim C8 — cache hit is a pure read -/

/-- C8: when the composite key of a request is in the cache,
`generateWebsite` returns the cached response at once with the cache left
unchanged, and the result is the same for every environment — in
particular no provider validation and no backend call can influence it
(the theorem holds even for environments whose validator or backend always
throws). -/
theorem claim_c8_cache_hit_pure (env : GenEnv) (cache : CacheService AIResponse)
    (url provider : String) (options : List (String × JsonValue)) (r : AIResponse)
    (h : cache.get (generateCacheKey url provider options) = some r) :
    generateWebsite env cache url provider options = (.ok r, cache) := by
  simp only [generateWebsite]
  rw [h]

/-- Witness for C8: a one-entry cache hit under an environment whose
validator and backend both always throw. -/
theorem claim_c8_cache_hit_pure_witness :
    (CacheService.mk [(generateCacheKey "example.com" "anthropic" [], respA)]).get
        (generateCacheKey "example.com" "anthropic" []) = some respA ∧
    generateWebsite envC8 (CacheService.mk [(generateCacheKey "example.com" "anthropic" [], respA)])
        "example.com" "anthropic" []
      = (.ok respA, CacheService.mk [(generateCacheKey "example.com" "anthropic" [], respA)]) :=
  ⟨by simp [CacheService.get, JsMap.mapGet],
   claim_c8_cache_hit_pure envC8 _ "example.com" "anthropic" [] respA
     (by simp [CacheService.get, JsMap.mapGet])⟩

/-! ## Claim C9 — backend failure wrapping and cache-on-success-only -/

/-- C9: on a cache miss, a validation error propagates with the cache
unchanged; a backend exception is wrapped as an `AIError` with code
`CONTENT_GENERATION_FAILED` carrying the provider id and the original
message, again with the cache unchanged; and only the successful path
stores the constructed response (with `cacheService.set`) before returning
it. -/
theorem claim_c9_failure_wrapping_cache_on_success (env : GenEnv)
    (cache : CacheService AIResponse) (url provider : String)
    (options : List (String × JsonValue))
    (hmiss : cache.get (generateCacheKey url provider options) = none) :
    (∀ e, env.validateProvider provider = .error e →
      generateWebsite env cache url provider options = (.error e, cache)) ∧
    (∀ p msg, env.validateProvider provider = .ok p →
      env.generateText (env.generatePrompt url) options = .error msg →
      generateWebsite env cache url provider options =
        (.error ⟨"Failed to generate content: " ++ msg,
                 CONTENT_GENERATION_FAILED, some provider⟩, cache)) ∧
    (∀ p result, env.validateProvider provider = .ok p →
      env.generateText (env.generatePrompt url) options = .ok result →
      generateWebsite env cache url provider options =
        (.ok { content := result.text
               provider := p.id
               model := p.model
               timestamp := env.endTime
               tokensUsed := result.usageTotalTokens
               responseTime := env.endTime - env.startTime },
         cache.set (generateCacheKey url provider options)
           { content := result.text
             provider := p.id
             model := p.model
             timestamp := env.endTime
             tokensUsed := result.usageTotalTokens
             responseTime := env.endTime - env.startTime })) := by
  refine ⟨?_, ?_, ?_⟩
  · intro e he
    simp only [generateWebsite]
    rw [hmiss, he]
  · intro p msg hp hmsg
    simp only [generateWebsite]
    rw [hmiss, hp, hmsg]
  · intro p result hp hres
    simp only [generateWebsite]
    rw [hmiss, hp, hres]

/-- Witness for C9: an empty cache, a succeeding validator and a backend
that throws "rate limited". -/
theorem claim_c9_failure_wrapping_cache_on_success_witness :
    (CacheService.init (α := AIResponse)).get
        (generateCacheKey "example.com" "openai" []) = none ∧
    ((∀ e, envC9.validateProvider "openai" = .error e →
      generateWebsite envC9 CacheService.init "example.com" "openai" [] = (.error e, CacheService.init)) ∧
    (∀ p msg, envC9.validateProvider "openai" = .ok p →
      envC9.generateText (envC9.generatePrompt "example.com") [] = .error msg →
      generateWebsite envC9 CacheService.init "example.com" "openai" [] =
        (.error ⟨"Failed to generate content: " ++ msg,
                 CONTENT_GENERATION_FAILED, some "openai"⟩, CacheService.init)) ∧
    (∀ p result, envC9.validateProvider "openai" = .ok p →
      envC9.generateText (envC9.generatePrompt "example.com") [] = .ok result →
      generateWebsite envC9 CacheService.init "example.com" "openai" [] =
        (.ok { content := result.text
               provider := p.id
               model := p.model
               timestamp := envC9.endTime
               tokensUsed := result.usageTotalTokens
               responseTime := envC9.endTime - envC9.startTime },
         CacheService.set CacheService.init (generateCacheKey "example.com" "openai" [])
           { content := result.text
             provider := p.id
             model := p.model
             timestamp := envC9.endTime
             tokensUsed := result.usageTotalTokens
             responseTime := envC9.endTime - envC9.startTime }))) :=
  ⟨rfl, claim_c9_failure_wrapping_cache_on_success envC9 CacheService.init
    "example.com" "openai" [] rfl⟩

/-! ## Lemmas about the streaming model -/

theorem positiveSpeedsOf_append (a b : List AIStreamChunk) :
    positiveSpeedsOf (a ++ b) = positiveSpeedsOf a ++ positiveSpeedsOf b := by
  simp [positiveSpeedsOf, List.filter_append]

theorem processDelta_speed_inv (startTime : Nat) (st : StreamState) (text : String) (time : Nat) :
    (processDelta startTime st text time).1.cumulativeSpeed
        = st.cumulativeSpeed + (positiveSpeedsOf (processDelta startTime st text time).2).sum
    ∧ (processDelta startTime st text time).1.totalSpeedMeasurements
        = st.totalSpeedMeasurements + (positiveSpeedsOf (processDelta startTime st text time).2).length
    ∧ ∀ c ∈ (processDelta startTime st text time).2, c.done = false := by
  simp only [processDelta]
  by_cases h1 : 0 < text.length
  · simp only [if_pos h1]
    by_cases hts : 0 < deltaSpeed st ((text.length + 3) / 4) time
    · simp [positiveSpeedsOf, List.filter, hts]
    · simp [positiveSpeedsOf, List.filter, hts]
  · simp [if_neg h1, positiveSpeedsOf]

theorem processDelta_token_inv (startTime : Nat) (st : StreamState) (text : String) (time : Nat) :
    (processDelta startTime st text time).1.inputTokens = st.inputTokens
    ∧ (processDelta startTime st text time).1.outputTokens
        = st.outputTokens + (if 0 < text.length then (text.length + 3) / 4 else 0)
    ∧ ((processDelta startTime st text time).2.map fun c => c.metadata.outputTokens)
        = (if 0 < text.length then [st.outputTokens + (text.length + 3) / 4] else [])
    ∧ (∀ c ∈ (processDelta startTime st text time).2, c.metadata.inputTokens = st.inputTokens) := by
  simp only [processDelta]
  split_ifs with h1 <;> simp

theorem processFinish_speed_inv (st : StreamState) (u : Option Usage) :
    (processFinish st u).cumulativeSpeed = st.cumulativeSpeed
    ∧ (processFinish st u).totalSpeedMeasurements = st.totalSpeedMeasurements := by
  cases u <;> simp [processFinish]

theorem runFull_speed_inv (startTime : Nat) (parts : List FullStreamPart) (st : StreamState) :
    (runFull startTime st parts).state.cumulativeSpeed
        = st.cumulativeSpeed + (positiveSpeedsOf (runFull startTime st parts).chunks).sum
    ∧ (runFull startTime st parts).state.totalSpeedMeasurements
        = st.totalSpeedMeasurements + (positiveSpeedsOf (runFull startTime st parts).chunks).length
    ∧ ∀ c ∈ (runFull startTime st parts).chunks, c.done = false := by
  induction parts generalizing st with
  | nil => simp [runFull, positiveSpeedsOf]
  | cons part rest ih =>
    cases part with
    | textDelta text time =>
      have hp := processDelta_speed_inv startTime { st with chunkCount := st.chunkCount + 1 } text time
      have hr := ih (processDelta startTime { st with chunkCount := st.chunkCount + 1 } text time).1
      refine ⟨?_, ?_, ?_⟩
      · simp only [runFull, positiveSpeedsOf_append, List.sum_append]
        rw [hr.1, hp.1]
        show _ = st.cumulativeSpeed + _
        ring
      · simp only [runFull, positiveSpeedsOf_append, List.length_append]
        rw [hr.2.1, hp.2.1]
        have hm : ({ st with chunkCount := st.chunkCount + 1 } : StreamState).totalSpeedMeasurements
            = st.totalSpeedMeasurements := rfl
        rw [hm]
        omega
      · intro c hc
        simp only [runFull, List.mem_append] at hc
        cases hc with
        | inl h => exact hp.2.2 c h
        | inr h => exact hr.2.2 c h
    | finish u =>
      have hf := processFinish_speed_inv { st with chunkCount := st.chunkCount + 1 } u
      refine ⟨?_, ?_, ?_⟩
      · simp only [runFull, positiveSpeedsOf]
        simp [hf.1]
      · simp only [runFull, positiveSpeedsOf]
        simp [hf.2]
      · intro c hc
        simp only [runFull] at hc
        simp at hc
    | errorEvent =>
      refine ⟨by simp [runFull, positiveSpeedsOf], by simp [runFull, positiveSpeedsOf], ?_⟩
      intro c hc
      simp [runFull] at hc
    | other =>
      have hr := ih { st with chunkCount := st.chunkCount + 1 }
      exact ⟨by simpa [runFull] using hr.1, by simpa [runFull] using hr.2.1,
             by simpa [runFull] using hr.2.2⟩

theorem runText_speed_inv (startTime : Nat) (parts : List (String × Nat)) (st : StreamState) :
    (runText startTime st parts).state.cumulativeSpeed
        = st.cumulativeSpeed + (positiveSpeedsOf (runText startTime st parts).chunks).sum
    ∧ (runText startTime st parts).state.totalSpeedMeasurements
        = st.totalSpeedMeasurements + (positiveSpeedsOf (runText startTime st parts).chunks).length
    ∧ ∀ c ∈ (runText startTime st parts).chunks, c.done = false := by
  induction parts generalizing st with
  | nil => simp [runText, positiveSpeedsOf]
  | cons part rest ih =>
    obtain ⟨text, time⟩ := part
    have hp := processDelta_speed_inv startTime { st with chunkCount := st.chunkCount + 1 } text time
    have hr := ih (processDelta startTime { st with chunkCount := st.chunkCount + 1 } text time).1
    refine ⟨?_, ?_, ?_⟩
    · simp only [runText, positiveSpeedsOf_append, List.sum_append]
      rw [hr.1, hp.1]
      show _ = st.cumulativeSpeed + _
      ring
    · simp only [runText, positiveSpeedsOf_append, List.length_append]
      rw [hr.2.1, hp.2.1]
      have hm : ({ st with chunkCount := st.chunkCount + 1 } : StreamState).totalSpeedMeasurements
          = st.totalSpeedMeasurements := rfl
      rw [hm]
      omega
    · intro c hc
      simp only [runText, List.mem_append] at hc
      cases hc with
      | inl h => exact hp.2.2 c h
      | inr h => exact hr.2.2 c h

theorem finalChunk_tokenSpeed_meanQ (env : StreamEnv) (st : StreamState)
    (chunks : List AIStreamChunk)
    (hcum : st.cumulativeSpeed = (positiveSpeedsOf chunks).sum)
    (hmeas : st.totalSpeedMeasurements = (positiveSpeedsOf chunks).length) :
    (finalChunk env st).metadata.tokenSpeed = meanQ (positiveSpeedsOf chunks) := by
  simp only [finalChunk, meanQ, hcum, hmeas]
  by_cases h : (positiveSpeedsOf chunks).length = 0
  · simp [h]
  · rw [if_pos (Nat.pos_of_ne_zero h), if_neg h]

theorem runFull_deltas (startTime : Nat) (parts : List FullStreamPart)
    (h : ∀ p ∈ parts, isDeltaOrOther p = true) (st : StreamState) :
    (runFull startTime st parts).exit = FullExit.exhausted
    ∧ (runFull startTime st parts).state.inputTokens = st.inputTokens
    ∧ (runFull startTime st parts).state.outputTokens
        = st.outputTokens + (deltaTokenCounts parts).sum
    ∧ ((runFull startTime st parts).chunks.map fun c => c.metadata.outputTokens)
        = partialSumsFrom st.outputTokens (deltaTokenCounts parts)
    ∧ (∀ c ∈ (runFull startTime st parts).chunks, c.metadata.inputTokens = st.inputTokens) := by
  induction parts generalizing st with
  | nil => simp [runFull, deltaTokenCounts, partialSumsFrom]
  | cons part rest ih =>
    cases part with
    | textDelta text time =>
      have hrest : ∀ p ∈ rest, isDeltaOrOther p = true :=
        fun p hp => h p (List.mem_cons_of_mem _ hp)
      have hp := processDelta_token_inv startTime
        { st with chunkCount := st.chunkCount + 1 } text time
      have hr := ih hrest
        (processDelta startTime { st with chunkCount := st.chunkCount + 1 } text time).1
      have hin : ({ st with chunkCount := st.chunkCount + 1 } : StreamState).inputTokens
          = st.inputTokens := rfl
      have hout : ({ st with chunkCount := st.chunkCount + 1 } : StreamState).outputTokens
          = st.outputTokens := rfl
      by_cases hlen : 0 < text.length
      · refine ⟨?_, ?_, ?_, ?_, ?_⟩
        · simpa [runFull] using hr.1
        · simp only [runFull]
          rw [hr.2.1, hp.1, hin]
        · simp only [runFull, deltaTokenCounts, if_pos hlen, List.sum_cons]
          rw [hr.2.2.1, hp.2.1, if_pos hlen, hout]
          omega
        · simp only [runFull, List.map_append]
          rw [hr.2.2.2.1, hp.2.2.1, if_pos hlen, hout, hp.2.1, if_pos hlen, hout]
          simp [deltaTokenCounts, if_pos hlen, partialSumsFrom]
        · intro c hc
          simp only [runFull, List.mem_append] at hc
          cases hc with
          | inl h1 => rw [hp.2.2.2 c h1, hin]
          | inr h2 => rw [hr.2.2.2.2 c h2, hp.1, hin]
      · refine ⟨?_, ?_, ?_, ?_, ?_⟩
        · simpa [runFull] using hr.1
        · simp only [runFull]
          rw [hr.2.1, hp.1, hin]
        · simp only [runFull, deltaTokenCounts, if_neg hlen]
          rw [hr.2.2.1, hp.2.1, if_neg hlen, hout]
          omega
        · simp only [runFull, List.map_append]
          rw [hr.2.2.2.1, hp.2.2.1, if_neg hlen, hp.2.1, if_neg hlen, hout]
          simp [deltaTokenCounts, if_neg hlen]
        · intro c hc
          simp only [runFull, List.mem_append] at hc
          cases hc with
          | inl h1 => rw [hp.2.2.2 c h1, hin]
          | inr h2 => rw [hr.2.2.2.2 c h2, hp.1, hin]
    | finish u =>
      exact absurd (h _ (List.mem_cons_self _ _)) (by simp [isDeltaOrOther])
    | errorEvent =>
      exact absurd (h _ (List.mem_cons_self _ _)) (by simp [isDeltaOrOther])
    | other =>
      have hrest : ∀ p ∈ rest, isDeltaOrOther p = true :=
        fun p hp => h p (List.mem_cons_of_mem _ hp)
      have hr := ih hrest { st with chunkCount := st.chunkCount + 1 }
      exact ⟨by simpa [runFull] using hr.1,
             by simpa [runFull] using hr.2.1,
             by simpa [runFull, deltaTokenCounts] using hr.2.2.1,
             by simpa [runFull, deltaTokenCounts] using hr.2.2.2.1,
             by simpa [runFull] using hr.2.2.2.2⟩

theorem runFull_append_deltas (startTime : Nat) (ds : List FullStreamPart)
    (h : ∀ p ∈ ds, isDeltaOrOther p = true) (st : StreamState) (rest : List FullStreamPart) :
    runFull startTime st (ds ++ rest) =
      ⟨(runFull startTime (runFull startTime st ds).state rest).state,
       (runFull startTime st ds).chunks
         ++ (runFull startTime (runFull startTime st ds).state rest).chunks,
       (runFull startTime (runFull startTime st ds).state rest).exit⟩ := by
  induction ds generalizing st with
  | nil => simp [runFull]
  | cons d ds' ih =>
    cases d with
    | textDelta text time =>
      have hds' : ∀ p ∈ ds', isDeltaOrOther p = true :=
        fun p hp => h p (List.mem_cons_of_mem _ hp)
      simp only [List.cons_append, runFull, List.append_eq]
      rw [ih hds']
      simp [List.append_assoc]
    | finish u =>
      exact absurd (h _ (List.mem_cons_self _ _)) (by simp [isDeltaOrOther])
    | errorEvent =>
      exact absurd (h _ (List.mem_cons_self _ _)) (by simp [isDeltaOrOther])
    | other =>
      have hds' : ∀ p ∈ ds', isDeltaOrOther p = true :=
        fun p hp => h p (List.mem_cons_of_mem _ hp)
      simp only [List.cons_append, runFull, List.append_eq]
      rw [ih hds']

theorem runFull_error_after_deltas (startTime : Nat) (ds : List FullStreamPart)
    (h : ∀ p ∈ ds, isDeltaOrOther p = true) (st : StreamState) (rest : List FullStreamPart) :
    runFull startTime st (ds ++ FullStreamPart.errorEvent :: rest) =
      ⟨{ (runFull startTime st ds).state with
           chunkCount := (runFull startTime st ds).state.chunkCount + 1 },
        (runFull startTime st ds).chunks, FullExit.erroredExit⟩ := by
  rw [runFull_append_deltas startTime ds h st (FullStreamPart.errorEvent :: rest)]
  simp [runFull]

theorem runFull_finish_after_deltas (startTime : Nat) (ds : List FullStreamPart)
    (h : ∀ p ∈ ds, isDeltaOrOther p = true) (st : StreamState) (u : Option Usage) :
    runFull startTime st (ds ++ [FullStreamPart.finish u]) =
      ⟨processFinish { (runFull startTime st ds).state with
           chunkCount := (runFull startTime st ds).state.chunkCount + 1 } u,
        (runFull startTime st ds).chunks, FullExit.finishedExit⟩ := by
  rw [runFull_append_deltas startTime ds h st [FullStreamPart.finish u]]
  simp [runFull]

/-! ## Evaluation lemmas for `streamWebsite` -/

theorem streamWebsite_no_providers (env : StreamEnv) (provider prompt : String)
    (hp : env.hasProviders = false) :
    streamWebsite env provider prompt =
      ([], some ⟨"No AI providers configured. Please set up API keys.", API_KEY_MISSING, none⟩) := by
  unfold streamWebsite
  rw [if_pos hp]

theorem streamWebsite_validate_error (env : StreamEnv) (provider prompt : String)
    (e : AIError) (hp : env.hasProviders = true) (hv : env.validateProvider = .error e) :
    streamWebsite env provider prompt = ([], some e) := by
  unfold streamWebsite
  rw [if_neg (by simp [hp]), hv]

theorem streamWebsite_no_abort (env : StreamEnv) (provider prompt : String)
    (pr : AIProviderRec) (hp : env.hasProviders = true)
    (hv : env.validateProvider = .ok pr) (hab : fullAborted env prompt = false) :
    streamWebsite env provider prompt =
      ((runFull env.startTime (initState env prompt) env.fullParts).chunks
        ++ [finalChunk env (runFull env.startTime (initState env prompt) env.fullParts).state],
       none) := by
  unfold streamWebsite
  rw [if_neg (by simp [hp]), hv]
  dsimp only
  rw [if_neg (by simp [hab])]

theorem streamWebsite_abort_ok (env : StreamEnv) (provider prompt : String)
    (pr : AIProviderRec) (hp : env.hasProviders = true)
    (hv : env.validateProvider = .ok pr) (hab : fullAborted env prompt = true)
    (ht : env.textStreamFails = false) :
    streamWebsite env provider prompt =
      ((runFull env.startTime (initState env prompt) env.fullParts).chunks
        ++ (runText env.startTime
              (runFull env.startTime (initState env prompt) env.fullParts).state
              env.textParts).chunks
        ++ [finalChunk env (runText env.startTime
              (runFull env.startTime (initState env prompt) env.fullParts).state
              env.textParts).state],
       none) := by
  unfold streamWebsite
  rw [if_neg (by simp [hp]), hv]
  dsimp only
  rw [if_pos (by simp [hab]), if_neg (by simp [ht])]

theorem streamWebsite_abort_fail (env : StreamEnv) (provider prompt : String)
    (pr : AIProviderRec) (hp : env.hasProviders = true)
    (hv : env.validateProvider = .ok pr) (hab : fullAborted env prompt = true)
    (ht : env.textStreamFails = true) :
    streamWebsite env provider prompt =
      ((runFull env.startTime (initState env prompt) env.fullParts).chunks
        ++ (runText env.startTime
              (runFull env.startTime (initState env prompt) env.fullParts).state
              env.textParts).chunks,
       some ⟨"Failed to stream content: " ++ env.textFailMsg,
             CONTENT_GENERATION_FAILED, some provider⟩) := by
  unfold streamWebsite
  rw [if_neg (by simp [hp]), hv]
  dsimp only
  rw [if_pos (by simp [hab]), if_pos ht]

/-! ## Claim C4 — the terminal chunk -/

/-- C4: every run of `streamWebsite` that completes without raising emits
exactly one `done=true` chunk; it is the last chunk, its content is empty,
and its `tokenSpeed` is the arithmetic mean of the positive instantaneous
speeds of the emitted chunks (0 when there were none).  The empty-stream
run is covered: the body may be empty and the terminal chunk is still
emitted. -/
theorem claim_c4_terminal_chunk (env : StreamEnv) (provider prompt : String)
    (h : (streamWebsite env provider prompt).2 = none) :
    ∃ body tc, (streamWebsite env provider prompt).1 = body ++ [tc]
      ∧ (∀ c ∈ body, c.done = false)
      ∧ tc.done = true
      ∧ tc.content = ""
      ∧ tc.metadata.tokenSpeed = meanQ (positiveSpeedsOf body) := by
  have hFull := runFull_speed_inv env.startTime env.fullParts (initState env prompt)
  have hText := runText_speed_inv env.startTime env.textParts
    (runFull env.startTime (initState env prompt) env.fullParts).state
  have hCumF : (runFull env.startTime (initState env prompt) env.fullParts).state.cumulativeSpeed
      = (positiveSpeedsOf (runFull env.startTime (initState env prompt) env.fullParts).chunks).sum := by
    rw [hFull.1]
    show (0 : ℚ) + _ = _
    rw [zero_add]
  have hMeasF : (runFull env.startTime (initState env prompt) env.fullParts).state.totalSpeedMeasurements
      = (positiveSpeedsOf (runFull env.startTime (initState env prompt) env.fullParts).chunks).length := by
    rw [hFull.2.1]
    show 0 + _ = _
    rw [Nat.zero_add]
  have hCumT : (runText env.startTime (runFull env.startTime (initState env prompt) env.fullParts).state
        env.textParts).state.cumulativeSpeed
      = (positiveSpeedsOf ((runFull env.startTime (initState env prompt) env.fullParts).chunks
          ++ (runText env.startTime (runFull env.startTime (initState env prompt) env.fullParts).state
                env.textParts).chunks)).sum := by
    rw [hText.1, hCumF, positiveSpeedsOf_append, List.sum_append]
  have hMeasT : (runText env.startTime (runFull env.startTime (initState env prompt) env.fullParts).state
        env.textParts).state.totalSpeedMeasurements
      = (positiveSpeedsOf ((runFull env.startTime (initState env prompt) env.fullParts).chunks
          ++ (runText env.startTime (runFull env.startTime (initState env prompt) env.fullParts).state
                env.textParts).chunks)).length := by
    rw [hText.2.1, hMeasF, positiveSpeedsOf_append, List.length_append]
  by_cases hp : env.hasProviders = false
  · rw [streamWebsite_no_providers env provider prompt hp] at h
    simp at h
  have hp' : env.hasProviders = true := by
    revert hp
    cases env.hasProviders <;> simp
  cases hv : env.validateProvider with
  | error e =>
    rw [streamWebsite_validate_error env provider prompt e hp' hv] at h
    simp at h
  | ok pr =>
    by_cases hab : fullAborted env prompt = true
    · by_cases ht : env.textStreamFails = true
      · rw [streamWebsite_abort_fail env provider prompt pr hp' hv hab ht] at h
        simp at h
      · have ht' : env.textStreamFails = false := by
          revert ht
          cases env.textStreamFails <;> simp
        rw [streamWebsite_abort_ok env provider prompt pr hp' hv hab ht']
        refine ⟨(runFull env.startTime (initState env prompt) env.fullParts).chunks
            ++ (runText env.startTime
                  (runFull env.startTime (initState env prompt) env.fullParts).state
                  env.textParts).chunks,
          finalChunk env (runText env.startTime
              (runFull env.startTime (initState env prompt) env.fullParts).state
              env.textParts).state,
          by simp [List.append_assoc], ?_, rfl, rfl, ?_⟩
        · intro c hc
          rcases List.mem_append.mp hc with h1 | h2
          · exact hFull.2.2 c h1
          · exact hText.2.2 c h2
        · exact finalChunk_tokenSpeed_meanQ env _ _ hCumT hMeasT
    · have hab' : fullAborted env prompt = false := by
        revert hab
        cases fullAborted env prompt <;> simp
      rw [streamWebsite_no_abort env provider prompt pr hp' hv hab']
      exact ⟨(runFull env.startTime (initState env prompt) env.fullParts).chunks,
        finalChunk env (runFull env.startTime (initState env prompt) env.fullParts).state,
        rfl, hFull.2.2, rfl, rfl, finalChunk_tokenSpeed_meanQ env _ _ hCumF hMeasF⟩

/-- Witness for C4 at a concrete two-delta environment. -/
theorem claim_c4_terminal_chunk_witness :
    (streamWebsite envC4 "anthropic" "Generate").2 = none ∧
    ∃ body tc, (streamWebsite envC4 "anthropic" "Generate").1 = body ++ [tc]
      ∧ (∀ c ∈ body, c.done = false)
      ∧ tc.done = true
      ∧ tc.content = ""
      ∧ tc.metadata.tokenSpeed = meanQ (positiveSpeedsOf body) :=
  ⟨by decide, claim_c4_terminal_chunk envC4 "anthropic" "Generate" (by decide)⟩

/-! ## Claim C3 — what actually happens when the primary stream fails -/

/-- C3 counterexample: with content already observed ("abcdefgh" was
emitted) and the provider then emitting an `error` event, `streamWebsite`
does NOT abort with `ContentGenerationFailed`: the thrown `AIError` is
caught by the inner catch, the text-only fallback runs (here it is empty),
and the run completes normally with a terminal `done=true` chunk — the
claim as stated is false at this input. -/
theorem claim_c3_counterexample :
    envC3cex.fullParts = [FullStreamPart.textDelta "abcdefgh" 1000, FullStreamPart.errorEvent]
    ∧ ((streamWebsite envC3cex "anthropic" "abcd").1.map fun c => c.content) = ["abcdefgh", ""]
    ∧ ((streamWebsite envC3cex "anthropic" "abcd").1.map fun c => c.done) = [false, true]
    ∧ (streamWebsite envC3cex "anthropic" "abcd").2 = none :=
  ⟨rfl, by decide, by decide, by decide⟩

/-- C3 (amended): whenever consuming the primary full-event stream fails —
including the `AIError` raised by the `error`-event branch, and regardless
of whether content has already been observed — `streamWebsite` restarts on
the simpler text-only stream, continuing with the counters accumulated so
far, and completes with a terminal chunk; `ContentGenerationFailed` is
raised (aborting without any `done=true` chunk) only when the fallback
text stream itself fails. -/
theorem claim_c3_fallback_unconditional :
    (∀ (env : StreamEnv) (pr : AIProviderRec) (provider prompt : String)
        (ds rest : List FullStreamPart),
      env.hasProviders = true → env.validateProvider = .ok pr →
      env.fullParts = ds ++ FullStreamPart.errorEvent :: rest →
      (∀ p ∈ ds, isDeltaOrOther p = true) →
      env.textStreamFails = false →
      (runFull env.startTime (initState env prompt) env.fullParts).exit = FullExit.erroredExit
      ∧ (streamWebsite env provider prompt).2 = none
      ∧ (streamWebsite env provider prompt).1
          = (runFull env.startTime (initState env prompt) env.fullParts).chunks
            ++ (runText env.startTime
                  (runFull env.startTime (initState env prompt) env.fullParts).state
                  env.textParts).chunks
            ++ [finalChunk env (runText env.startTime
                  (runFull env.startTime (initState env prompt) env.fullParts).state
                  env.textParts).state])
    ∧ (∀ (env : StreamEnv) (pr : AIProviderRec) (provider prompt : String)
        (ds rest : List FullStreamPart),
      env.hasProviders = true → env.validateProvider = .ok pr →
      env.fullParts = ds ++ FullStreamPart.errorEvent :: rest →
      (∀ p ∈ ds, isDeltaOrOther p = true) →
      env.textStreamFails = true →
      (streamWebsite env provider prompt).2
        = some ⟨"Failed to stream content: " ++ env.textFailMsg,
                CONTENT_GENERATION_FAILED, some provider⟩
      ∧ (∀ c ∈ (streamWebsite env provider prompt).1, c.done = false)) := by
  constructor
  · intro env pr provider prompt ds rest hp hv hparts hds ht
    have hexit : (runFull env.startTime (initState env prompt) env.fullParts).exit
        = FullExit.erroredExit := by
      rw [hparts, runFull_error_after_deltas env.startTime ds hds (initState env prompt) rest]
    have hab : fullAborted env prompt = true := by
      unfold fullAborted
      rw [hexit]
    rw [streamWebsite_abort_ok env provider prompt pr hp hv hab ht]
    exact ⟨hexit, rfl, rfl⟩
  · intro env pr provider prompt ds rest hp hv hparts hds ht
    have hexit : (runFull env.startTime (initState env prompt) env.fullParts).exit
        = FullExit.erroredExit := by
      rw [hparts, runFull_error_after_deltas env.startTime ds hds (initState env prompt) rest]
    have hab : fullAborted env prompt = true := by
      unfold fullAborted
      rw [hexit]
    have hFull := runFull_speed_inv env.startTime env.fullParts (initState env prompt)
    have hText := runText_speed_inv env.startTime env.textParts
      (runFull env.startTime (initState env prompt) env.fullParts).state
    rw [streamWebsite_abort_fail env provider prompt pr hp hv hab ht]
    refine ⟨rfl, ?_⟩
    intro c hc
    rcases List.mem_append.mp hc with h1 | h2
    · exact hFull.2.2 c h1
    · exact hText.2.2 c h2

/-- Witness for the amended C3: one environment where the fallback text
stream succeeds after the error event, one where it fails. -/
theorem claim_c3_fallback_unconditional_witness :
    (envC3a.fullParts = [FullStreamPart.textDelta "abcdefgh" 1000]
        ++ FullStreamPart.errorEvent :: []
      ∧ envC3a.textStreamFails = false
      ∧ ((runFull envC3a.startTime (initState envC3a "abcd") envC3a.fullParts).exit
            = FullExit.erroredExit
        ∧ (streamWebsite envC3a "anthropic" "abcd").2 = none
        ∧ (streamWebsite envC3a "anthropic" "abcd").1
            = (runFull envC3a.startTime (initState envC3a "abcd") envC3a.fullParts).chunks
              ++ (runText envC3a.startTime
                    (runFull envC3a.startTime (initState envC3a "abcd") envC3a.fullParts).state
                    envC3a.textParts).chunks
              ++ [finalChunk envC3a (runText envC3a.startTime
                    (runFull envC3a.startTime (initState envC3a "abcd") envC3a.fullParts).state
                    envC3a.textParts).state]))
    ∧ (envC3b.textStreamFails = true
      ∧ ((streamWebsite envC3b "anthropic" "abcd").2
            = some ⟨"Failed to stream content: " ++ envC3b.textFailMsg,
                    CONTENT_GENERATION_FAILED, some "anthropic"⟩
        ∧ (∀ c ∈ (streamWebsite envC3b "anthropic" "abcd").1, c.done = false))) :=
  ⟨⟨rfl, rfl,
    claim_c3_fallback_unconditional.1 envC3a ⟨"anthropic", "claude-sonnet-4"⟩
      "anthropic" "abcd" [FullStreamPart.textDelta "abcdefgh" 1000] [] rfl rfl rfl
      (by decide) rfl⟩,
   ⟨rfl,
    claim_c3_fallback_unconditional.2 envC3b ⟨"anthropic", "claude-sonnet-4"⟩
      "anthropic" "abcd" [FullStreamPart.textDelta "abcdefgh" 1000] [] rfl rfl rfl
      (by decide) rfl⟩⟩

/-! ## Claim C5 — token accounting and usage override -/

/-- C5 counterexample: the finish event carries usage totals
`{inputTokens: 0, outputTokens: 0, totalTokens: 0}`, but the terminal
chunk still reports the running estimate (`ceil(4 / 4) = 1` input tokens
for the length-4 prompt) instead of the carried total 0: the source
applies the totals through JavaScript `||`, so zero totals do not override
the estimates, contradicting the claim as stated. -/
theorem claim_c5_counterexample :
    envC5cex.fullParts = [FullStreamPart.finish (some ⟨some 0, some 0, some 0⟩)]
    ∧ (streamWebsite envC5cex "anthropic" "abcd").2 = none
    ∧ ((streamWebsite envC5cex "anthropic" "abcd").1.map fun c => c.metadata.inputTokens) = [1]
    ∧ (1 : Nat) ≠ 0 :=
  ⟨rfl, by decide, by decide, by decide⟩

/-- C5 (amended): input tokens are initially estimated as
`ceil(promptLength / 4)`; each non-empty text delta adds
`ceil(deltaLength / 4)` to the output-token count while zero-length deltas
add nothing (the emitted chunks report the running partial sums and the
terminal chunk their total); and when the finish event carries usage
totals, each NONZERO total overrides the corresponding running estimate in
the terminal chunk (a zero or absent field keeps the estimate, through
JavaScript `||`). -/
theorem claim_c5_token_accounting :
    (∀ (env : StreamEnv) (pr : AIProviderRec) (provider prompt : String),
      env.hasProviders = true → env.validateProvider = .ok pr →
      (∀ p ∈ env.fullParts, isDeltaOrOther p = true) →
      env.fullStreamFails = false →
      (streamWebsite env provider prompt).2 = none
      ∧ ((streamWebsite env provider prompt).1.map fun c => c.metadata.outputTokens)
          = partialSumsFrom 0 (deltaTokenCounts env.fullParts)
            ++ [(deltaTokenCounts env.fullParts).sum]
      ∧ (∀ c ∈ (streamWebsite env provider prompt).1,
          c.metadata.inputTokens = (prompt.length + 3) / 4))
    ∧ (∀ (env : StreamEnv) (pr : AIProviderRec) (provider prompt : String)
        (ds : List FullStreamPart) (u : Usage) (i o tt : Nat),
      env.hasProviders = true → env.validateProvider = .ok pr →
      env.fullParts = ds ++ [FullStreamPart.finish (some u)] →
      (∀ p ∈ ds, isDeltaOrOther p = true) →
      u.inputTokens = some i → i ≠ 0 →
      u.outputTokens = some o → o ≠ 0 →
      u.totalTokens = some tt → tt ≠ 0 →
      ∃ body tc, (streamWebsite env provider prompt).1 = body ++ [tc]
        ∧ tc.metadata.inputTokens = i
        ∧ tc.metadata.outputTokens = o
        ∧ tc.metadata.tokensUsed = tt
        ∧ (streamWebsite env provider prompt).2 = none) := by
  constructor
  · intro env pr provider prompt hp hv hds hfS
    have hd := runFull_deltas env.startTime env.fullParts hds (initState env prompt)
    have hab : fullAborted env prompt = false := by
      unfold fullAborted
      rw [hd.1, hfS]
    have hin : (initState env prompt).inputTokens = (prompt.length + 3) / 4 := rfl
    have hout : (initState env prompt).outputTokens = 0 := rfl
    rw [streamWebsite_no_abort env provider prompt pr hp hv hab]
    refine ⟨rfl, ?_, ?_⟩
    · rw [List.map_append, hd.2.2.2.1, hout]
      simp only [List.map_cons, List.map_nil]
      have htc : (finalChunk env (runFull env.startTime (initState env prompt)
            env.fullParts).state).metadata.outputTokens
          = (deltaTokenCounts env.fullParts).sum := by
        show (runFull env.startTime (initState env prompt) env.fullParts).state.outputTokens = _
        rw [hd.2.2.1, hout, Nat.zero_add]
      rw [htc]
    · intro c hc
      rcases List.mem_append.mp hc with h1 | h2
      · rw [hd.2.2.2.2 c h1, hin]
      · rcases List.mem_singleton.mp h2 with rfl
        show (runFull env.startTime (initState env prompt) env.fullParts).state.inputTokens = _
        rw [hd.2.1, hin]
  · intro env pr provider prompt ds u i o tt hp hv hparts hds hi hi0 ho ho0 htt htt0
    have hrun := runFull_finish_after_deltas env.startTime ds hds (initState env prompt) (some u)
    have hab : fullAborted env prompt = false := by
      unfold fullAborted
      rw [hparts, hrun]
    rw [streamWebsite_no_abort env provider prompt pr hp hv hab, hparts, hrun]
    refine ⟨(runFull env.startTime (initState env prompt) ds).chunks, _, rfl, ?_, ?_, ?_, rfl⟩
    · show (processFinish _ (some u)).inputTokens = i
      simp [processFinish, jsOr, hi, hi0]
    · show (processFinish _ (some u)).outputTokens = o
      simp [processFinish, jsOr, ho, ho0]
    · show (processFinish _ (some u)).totalTokens = tt
      simp [processFinish, jsOr, htt, htt0]

/-- Witness for the amended C5: the spec's 40/80/0-character delta scenario
with a 400-character prompt, and a separate run whose finish event carries
nonzero usage totals. -/
theorem claim_c5_token_accounting_witness :
    ((∀ p ∈ envC5a.fullParts, isDeltaOrOther p = true) ∧ envC5a.fullStreamFails = false ∧
      ((streamWebsite envC5a "anthropic" (String.mk (List.replicate 400 'p'))).2 = none
      ∧ ((streamWebsite envC5a "anthropic" (String.mk (List.replicate 400 'p'))).1.map
            fun c => c.metadata.outputTokens)
          = partialSumsFrom 0 (deltaTokenCounts envC5a.fullParts)
            ++ [(deltaTokenCounts envC5a.fullParts).sum]
      ∧ (∀ c ∈ (streamWebsite envC5a "anthropic" (String.mk (List.replicate 400 'p'))).1,
          c.metadata.inputTokens = ((String.mk (List.replicate 400 'p')).length + 3) / 4)))
    ∧ (envC5b.fullParts = [FullStreamPart.textDelta "abcdefgh" 1000]
          ++ [FullStreamPart.finish (some ⟨some 11, some 22, some 33⟩)] ∧
      ∃ body tc, (streamWebsite envC5b "anthropic" "abcd").1 = body ++ [tc]
        ∧ tc.metadata.inputTokens = 11
        ∧ tc.metadata.outputTokens = 22
        ∧ tc.metadata.tokensUsed = 33
        ∧ (streamWebsite envC5b "anthropic" "abcd").2 = none) :=
  ⟨⟨by decide, rfl,
    claim_c5_token_accounting.1 envC5a ⟨"anthropic", "claude-sonnet-4"⟩ "anthropic"
      (String.mk (List.replicate 400 'p')) rfl rfl (by decide) rfl⟩,
   ⟨rfl,
    claim_c5_token_accounting.2 envC5b ⟨"anthropic", "claude-sonnet-4"⟩ "anthropic" "abcd"
      [FullStreamPart.textDelta "abcdefgh" 1000] ⟨some 11, some 22, some 33⟩ 11 22 33
      rfl rfl rfl (by decide) rfl (by decide) rfl (by decide) rfl (by decide)⟩⟩

/-! ## Claim C6 — a closed code region preempts the fallback ladder -/

/-- C6: whenever the buffer contains a closed `<code>…</code>` region (the
non-greedy case-insensitive match succeeds with capture `inner`), the
extractor's document output is exactly the trimmed inner text, for every
buffer — in particular the HTML fallback ladder (`extractHTMLFromContent`)
is never consulted, whatever stray unclosed HTML the buffer also
contains. -/
theorem claim_c6_code_region_priority (buffer inner : List Char)
    (h : matchInner "<code>".toList "</code>".toList buffer = some inner) :
    (parseAndUpdateContent buffer).2 = jsTrim inner := by
  simp only [parseAndUpdateContent, h]

/-- Witness for C6: a buffer with a closed code region followed by stray
unclosed HTML. -/
theorem claim_c6_code_region_priority_witness :
    matchInner "<code>".toList "</code>".toList
        "<code><p>Hello</p></code><html><body>".toList = some "<p>Hello</p>".toList
    ∧ occurs "<html".toList "<code><p>Hello</p></code><html><body>".toList = true
    ∧ occurs "</html>".toList "<code><p>Hello</p></code><html><body>".toList = false
    ∧ (parseAndUpdateContent "<code><p>Hello</p></code><html><body>".toList).2
        = jsTrim "<p>Hello</p>".toList :=
  ⟨by decide, by decide, by decide,
   claim_c6_code_region_priority "<code><p>Hello</p></code><html><body>".toList
     "<p>Hello</p>".toList (by decide)⟩

/-! ## Lemmas about the literal-pattern matcher -/

theorem isPre_append_self (l r : List Char) : List.isPrefixOf l (l ++ r) = true := by
  induction l with
  | nil => simp [List.isPrefixOf]
  | cons a t ih => simp [List.isPrefixOf, ih]

theorem isPre_append_left {p a : List Char} (b : List Char)
    (h : List.isPrefixOf p a = true) : List.isPrefixOf p (a ++ b) = true := by
  induction p generalizing a with
  | nil => simp [List.isPrefixOf]
  | cons x xt ih =>
    cases a with
    | nil => simp [List.isPrefixOf] at h
    | cons y yt =>
      simp only [List.isPrefixOf, List.cons_append, Bool.and_eq_true] at h ⊢
      exact ⟨h.1, ih h.2⟩

theorem isPre_append_of_take {pat A : List Char} (B : List Char)
    (h : List.isPrefixOf (pat.take A.length) A = false) :
    List.isPrefixOf pat (A ++ B) = false := by
  induction pat generalizing A with
  | nil => simp [List.isPrefixOf] at h
  | cons p pt ih =>
    cases A with
    | nil => simp [List.isPrefixOf] at h
    | cons a A' =>
      simp only [List.length_cons, List.take_succ_cons, List.isPrefixOf,
        List.cons_append, Bool.and_eq_false_iff] at h ⊢
      cases h with
      | inl h1 => exact Or.inl h1
      | inr h2 => exact Or.inr (ih h2)

theorem findFrom_nil_of_ne {pat : List Char} (h : pat ≠ []) : findFrom pat [] = none := by
  simp [findFrom, h]

theorem findFrom_cons_none {pat : List Char} {a : Char} {s : List Char}
    (h1 : List.isPrefixOf pat (a :: s) = false) (h2 : findFrom pat s = none) :
    findFrom pat (a :: s) = none := by
  simp [findFrom, h1, h2]

theorem findFrom_of_isPre {pat s : List Char} (h : List.isPrefixOf pat s = true) :
    findFrom pat s = some 0 := by
  cases s with
  | nil =>
    cases pat with
    | nil => rfl
    | cons p pt => simp [List.isPrefixOf] at h
  | cons a t => simp [findFrom, h]

theorem findFrom_append_shift {pat : List Char} {c : Char} (hc : pat.head? = some c)
    (A B : List Char) (hA : ∀ a ∈ A, a ≠ c) :
    findFrom pat (A ++ B) = (findFrom pat B).map (· + A.length) := by
  induction A with
  | nil =>
    cases h : findFrom pat B <;> simp [h]
  | cons a A' ih =>
    have hpre : List.isPrefixOf pat (a :: (A' ++ B)) = false := by
      cases pat with
      | nil => simp at hc
      | cons p pt =>
        have hp : p = c := by simpa using hc
        have ha : a ≠ c := hA a (List.mem_cons_self _ _)
        have : (p == a) = false := by
          subst hp
          exact beq_eq_false_iff_ne.mpr (fun e => ha (Eq.symm e))
        simp [List.isPrefixOf, this]
    have ih' := ih (fun x hx => hA x (List.mem_cons_of_mem _ hx))
    simp only [List.cons_append, findFrom, List.append_eq]
    rw [if_neg (by simp [hpre]), ih']
    cases findFrom pat B with
    | none => rfl
    | some k => simp [Nat.add_assoc]

theorem findFrom_append_none {pat : List Char} {c : Char} (hc : pat.head? = some c)
    (A B : List Char) (hA : ∀ a ∈ A, a ≠ c) (hB : findFrom pat B = none) :
    findFrom pat (A ++ B) = none := by
  rw [findFrom_append_shift hc A B hA, hB]
  rfl

theorem findFrom_none_anchored {pat : List Char} {c : Char} (hc : pat.head? = some c)
    (s : List Char) (hA : ∀ a ∈ s, a ≠ c) : findFrom pat s = none := by
  have hne : pat ≠ [] := by
    cases pat
    · simp at hc
    · simp
  have := findFrom_append_none hc s [] hA (findFrom_nil_of_ne hne)
  simpa using this

theorem findFrom_seg_none {pat : List Char} {c : Char} (hc : pat.head? = some c)
    (A B : List Char) (hpre : List.isPrefixOf (pat.take A.length) A = false)
    (hA : ∀ a ∈ A.drop 1, a ≠ c) (hB : findFrom pat B = none) :
    findFrom pat (A ++ B) = none := by
  cases A with
  | nil => simp [List.isPrefixOf] at hpre
  | cons a A' =>
    have h1 : List.isPrefixOf pat ((a :: A') ++ B) = false := isPre_append_of_take B hpre
    have h2 : findFrom pat (A' ++ B) = none :=
      findFrom_append_none hc A' B (by simpa using hA) hB
    simpa [List.cons_append] using findFrom_cons_none h1 h2

theorem findFrom_isSome_of_drop {pat : List Char} {s : List Char} (i : Nat)
    (h : List.isPrefixOf pat (s.drop i) = true) : (findFrom pat s).isSome = true := by
  induction s generalizing i with
  | nil =>
    rw [List.drop_nil] at h
    cases pat with
    | nil => rfl
    | cons p pt => simp [List.isPrefixOf] at h
  | cons a t ih =>
    cases i with
    | zero =>
      rw [List.drop_zero] at h
      rw [findFrom_of_isPre h]
      rfl
    | succ i' =>
      rw [List.drop_succ_cons] at h
      have h2 := ih i' h
      simp only [findFrom]
      by_cases hp : List.isPrefixOf pat (a :: t) = true
      · simp [hp]
      · simp only [Bool.not_eq_true] at hp
        simp [hp, Option.isSome_map, h2]

theorem dropWhile_eq_self_of_all {p : Char → Bool} {l : List Char}
    (h : ∀ a ∈ l, p a = false) : l.dropWhile p = l := by
  cases l with
  | nil => rfl
  | cons a t =>
    exact List.dropWhile_cons_of_neg (by simp [h a (List.mem_cons_self _ _)])

theorem jsTrim_eq_self_of_all {l : List Char} (h : ∀ a ∈ l, isJsWS a = false) :
    jsTrim l = l := by
  unfold jsTrim
  rw [dropWhile_eq_self_of_all h,
      dropWhile_eq_self_of_all (fun a ha => h a (List.mem_reverse.mp ha)),
      List.reverse_reverse]

theorem jsTrim_newline {l : List Char} (h : ∀ a ∈ l, isJsWS a = false) :
    jsTrim ('\n' :: l) = l := by
  unfold jsTrim
  rw [List.dropWhile_cons_of_pos (by decide),
      dropWhile_eq_self_of_all h,
      dropWhile_eq_self_of_all (fun a ha => h a (List.mem_reverse.mp ha)),
      List.reverse_reverse]

theorem splitOnChar_eq_single {sep : Char} {l : List Char} (h : ∀ a ∈ l, a ≠ sep) :
    splitOnChar sep l = [l] := by
  induction l with
  | nil => rfl
  | cons a t ih =>
    simp only [splitOnChar, ih (fun x hx => h x (List.mem_cons_of_mem _ hx))]
    simp [h a (List.mem_cons_self _ _)]

theorem intercalate_single (s x : List Char) : List.intercalate s [x] = x := by
  simp [List.intercalate]

theorem removeRegionsAux_no_match {openT closeT s : List Char} (fuel : Nat)
    (h : matchSpan openT closeT s = none) :
    removeRegionsAux openT closeT fuel s = s := by
  cases fuel with
  | zero => rfl
  | succ f => simp [removeRegionsAux, h]

theorem removeRegions_no_match {openT closeT s : List Char}
    (h : matchSpan openT closeT s = none) :
    removeRegions openT closeT s = s :=
  removeRegionsAux_no_match _ h

theorem findFrom_none_shape_doc (pat : List Char) (hc : pat.head? = some '<')
    (tail : List Char) (htail : ∀ a ∈ tail, a ≠ '<')
    (h3 : List.isPrefixOf (pat.take "<html>".toList.length) "<html>".toList = false)
    (h4 : List.isPrefixOf (pat.take "<body>".toList.length) "<body>".toList = false)
    (h5 : List.isPrefixOf (pat.take "<p>".toList.length) "<p>".toList = false) :
    findFrom pat ("<html><body><p>".toList ++ tail) = none := by
  have hsplit : "<html><body><p>".toList
      = "<html>".toList ++ "<body>".toList ++ "<p>".toList := rfl
  rw [hsplit]
  simp only [List.append_assoc]
  refine findFrom_seg_none hc _ _ h3 (by decide) ?_
  refine findFrom_seg_none hc _ _ h4 (by decide) ?_
  refine findFrom_seg_none hc _ _ h5 (by decide) ?_
  exact findFrom_none_anchored hc tail htail

theorem findFrom_none_shape_nl (pat : List Char) (hc : pat.head? = some '<')
    (tail : List Char) (htail : ∀ a ∈ tail, a ≠ '<')
    (h3 : List.isPrefixOf (pat.take "<html>".toList.length) "<html>".toList = false)
    (h4 : List.isPrefixOf (pat.take "<body>".toList.length) "<body>".toList = false)
    (h5 : List.isPrefixOf (pat.take "<p>".toList.length) "<p>".toList = false) :
    findFrom pat ("\n<html><body><p>".toList ++ tail) = none := by
  have hsplit : "\n<html><body><p>".toList
      = "\n".toList ++ "<html><body><p>".toList := rfl
  rw [hsplit, List.append_assoc]
  exact findFrom_append_none hc _ _ (by decide)
    (findFrom_none_shape_doc pat hc tail htail h3 h4 h5)

theorem findFrom_none_shape_full (pat : List Char) (hc : pat.head? = some '<')
    (X tail : List Char) (hX : ∀ a ∈ X, a ≠ '<') (htail : ∀ a ∈ tail, a ≠ '<')
    (h1 : List.isPrefixOf (pat.take "<thinking>".toList.length) "<thinking>".toList = false)
    (h2 : List.isPrefixOf (pat.take "</thinking>".toList.length) "</thinking>".toList = false)
    (h3 : List.isPrefixOf (pat.take "<html>".toList.length) "<html>".toList = false)
    (h4 : List.isPrefixOf (pat.take "<body>".toList.length) "<body>".toList = false)
    (h5 : List.isPrefixOf (pat.take "<p>".toList.length) "<p>".toList = false) :
    findFrom pat ("<thinking>".toList ++ (X ++ ("</thinking>".toList
      ++ ("\n<html><body><p>".toList ++ tail)))) = none := by
  have hsplit : "\n<html><body><p>".toList
      = "\n".toList ++ "<html>".toList ++ "<body>".toList ++ "<p>".toList := rfl
  rw [hsplit]
  simp only [List.append_assoc]
  refine findFrom_seg_none hc _ _ h1 (by decide) ?_
  refine findFrom_append_none hc X _ hX ?_
  refine findFrom_seg_none hc _ _ h2 (by decide) ?_
  refine findFrom_append_none hc "\n".toList _ (by decide) ?_
  refine findFrom_seg_none hc _ _ h3 (by decide) ?_
  refine findFrom_seg_none hc _ _ h4 (by decide) ?_
  refine findFrom_seg_none hc _ _ h5 (by decide) ?_
  exact findFrom_none_anchored hc tail htail

theorem findFrom_none_shape_after_html (pat : List Char) (hc : pat.head? = some '<')
    (tail : List Char) (htail : ∀ a ∈ tail, a ≠ '<')
    (h4 : List.isPrefixOf (pat.take "<body>".toList.length) "<body>".toList = false)
    (h5 : List.isPrefixOf (pat.take "<p>".toList.length) "<p>".toList = false) :
    findFrom pat ("><body><p>".toList ++ tail) = none := by
  have hsplit : "><body><p>".toList
      = ">".toList ++ "<body>".toList ++ "<p>".toList := rfl
  rw [hsplit]
  simp only [List.append_assoc]
  refine findFrom_append_none hc _ _ (by decide) ?_
  refine findFrom_seg_none hc _ _ h4 (by decide) ?_
  refine findFrom_seg_none hc _ _ h5 (by decide) ?_
  exact findFrom_none_anchored hc tail htail

/-! ## Claim C7 — thinking region plus unterminated document -/

/-- C7: for a buffer consisting of a closed `<thinking>…</thinking>` region
followed by the unterminated HTML document `<html><body><p>` plus plain
text — so there is no closed `<code>` region — extraction yields the
thinking text (trimmed, under the fixed label) as the reasoning output,
and the document is produced by the line-scan fallback: the unterminated
document with `</body>` and `</html>` appended, each preceded by a
newline, because `<body` and `<html` are present but unclosed.  The
hypotheses say that the thinking text contains no `<` (even after
lowercasing) and that the trailing text is plain (no `<`, no backtick, no
whitespace, also after lowercasing), which is what "unterminated HTML
document with no closed code region" requires. -/
theorem claim_c7_extraction_fallback (X tail : List Char)
    (hXl : ∀ a ∈ X, a.toLower ≠ '<')
    (htailO : ∀ a ∈ tail, a ≠ '<' ∧ isJsWS a = false)
    (htailL : ∀ a ∈ tail, a.toLower ≠ '<' ∧ a.toLower ≠ '`') :
    parseAndUpdateContent ("<thinking>".toList ++ X ++ "</thinking>".toList
        ++ "\n<html><body><p>".toList ++ tail)
      = ("🤔 **Thinking**\n".toList ++ jsTrim X ++ "\n\n".toList,
         "<html><body><p>".toList ++ tail ++ "\n</body>\n</html>".toList) := by
  have htail1 : ∀ a ∈ tail, a ≠ '<' := fun a ha => (htailO a ha).1
  have htailws : ∀ a ∈ tail, isJsWS a = false := fun a ha => (htailO a ha).2
  have htailn : ∀ a ∈ tail, a ≠ '\n' := fun a ha e =>
    absurd ((htailO a ha).2) (by rw [e]; decide)
  have hXll : ∀ a ∈ X.map Char.toLower, a ≠ '<' := by
    intro a ha
    obtain ⟨x, hx, rfl⟩ := List.mem_map.mp ha
    exact hXl x hx
  have htailLl : ∀ a ∈ tail.map Char.toLower, a ≠ '<' := by
    intro a ha
    obtain ⟨x, hx, rfl⟩ := List.mem_map.mp ha
    exact (htailL x hx).1
  have htailLb : ∀ a ∈ tail.map Char.toLower, a ≠ '`' := by
    intro a ha
    obtain ⟨x, hx, rfl⟩ := List.mem_map.mp ha
    exact (htailL x hx).2
  have hbufeq : "<thinking>".toList ++ X ++ "</thinking>".toList
        ++ "\n<html><body><p>".toList ++ tail
      = "<thinking>".toList ++ (X ++ ("</thinking>".toList
        ++ ("\n<html><body><p>".toList ++ tail))) := by
    simp [List.append_assoc]
  rw [hbufeq]
  have hmapTO : "<thinking>".toList.map Char.toLower = "<thinking>".toList := rfl
  have hmapTC : "</thinking>".toList.map Char.toLower = "</thinking>".toList := rfl
  have hmapNLH : "\n<html><body><p>".toList.map Char.toLower
      = "\n<html><body><p>".toList := rfl
  have hmapHBP : "<html><body><p>".toList.map Char.toLower
      = "<html><body><p>".toList := rfl
  have hls : ("<thinking>".toList ++ (X ++ ("</thinking>".toList
        ++ ("\n<html><body><p>".toList ++ tail)))).map Char.toLower
      = "<thinking>".toList ++ (X.map Char.toLower ++ ("</thinking>".toList
        ++ ("\n<html><body><p>".toList ++ tail.map Char.toLower))) := by
    simp only [List.map_append, hmapTO, hmapTC, hmapNLH]
  have eTO : ("<thinking>".toList).length = 10 := rfl
  have eTC : ("</thinking>".toList).length = 11 := rfl
  have eNLH : ("\n<html><body><p>".toList).length = 16 := rfl
  have hspan : matchSpan "<thinking>".toList "</thinking>".toList
      ("<thinking>".toList ++ (X ++ ("</thinking>".toList
        ++ ("\n<html><body><p>".toList ++ tail)))) = some (0, X.length + 21) := by
    simp only [matchSpan]
    rw [hls, findFrom_of_isPre (isPre_append_self _ _)]
    dsimp only
    have hd : ("<thinking>".toList ++ (X.map Char.toLower ++ ("</thinking>".toList
          ++ ("\n<html><body><p>".toList ++ tail.map Char.toLower)))).drop
            (0 + ("<thinking>".toList).length)
        = X.map Char.toLower ++ ("</thinking>".toList
          ++ ("\n<html><body><p>".toList ++ tail.map Char.toLower)) := by
      rw [Nat.zero_add]
      exact List.drop_left _ _
    rw [hd, findFrom_append_shift (show ("</thinking>".toList).head? = some '<' from rfl)
          (X.map Char.toLower) _ hXll,
        findFrom_of_isPre (isPre_append_self _ _)]
    show some (0, 0 + ("<thinking>".toList).length
        + (0 + (X.map Char.toLower).length) + ("</thinking>".toList).length)
      = some (0, X.length + 21)
    rw [eTO, eTC, List.length_map]
    congr 2
    omega
  have hinner : matchInner "<thinking>".toList "</thinking>".toList
      ("<thinking>".toList ++ (X ++ ("</thinking>".toList
        ++ ("\n<html><body><p>".toList ++ tail)))) = some X := by
    simp only [matchInner, hspan]
    have h1 : ("<thinking>".toList ++ (X ++ ("</thinking>".toList
          ++ ("\n<html><body><p>".toList ++ tail)))).drop (0 + ("<thinking>".toList).length)
        = X ++ ("</thinking>".toList ++ ("\n<html><body><p>".toList ++ tail)) := by
      rw [Nat.zero_add]
      exact List.drop_left _ _
    rw [h1]
    have h2 : X.length + 21 - ("</thinking>".toList).length
        - (0 + ("<thinking>".toList).length) = X.length := by
      rw [eTC, eTO]
      omega
    rw [h2, List.take_left]
  have hreason : matchInner "<reasoning>".toList "</reasoning>".toList
      ("<thinking>".toList ++ (X ++ ("</thinking>".toList
        ++ ("\n<html><body><p>".toList ++ tail)))) = none := by
    simp only [matchInner, matchSpan]
    rw [hls, findFrom_none_shape_full "<reasoning>".toList rfl _ _ hXll htailLl
      (by decide) (by decide) (by decide) (by decide) (by decide)]
  have hcode : matchInner "<code>".toList "</code>".toList
      ("<thinking>".toList ++ (X ++ ("</thinking>".toList
        ++ ("\n<html><body><p>".toList ++ tail)))) = none := by
    simp only [matchInner, matchSpan]
    rw [hls, findFrom_none_shape_full "<code>".toList rfl _ _ hXll htailLl
      (by decide) (by decide) (by decide) (by decide) (by decide)]
  have hmapnl : ("\n<html><body><p>".toList ++ tail).map Char.toLower
      = "\n<html><body><p>".toList ++ tail.map Char.toLower := by
    simp only [List.map_append, hmapNLH]
  have hrem1 : removeRegions "<thinking>".toList "</thinking>".toList
      ("<thinking>".toList ++ (X ++ ("</thinking>".toList
        ++ ("\n<html><body><p>".toList ++ tail))))
      = "\n<html><body><p>".toList ++ tail := by
    unfold removeRegions
    have hlen : ("<thinking>".toList ++ (X ++ ("</thinking>".toList
          ++ ("\n<html><body><p>".toList ++ tail)))).length
        = (36 + X.length + tail.length) + 1 := by
      simp only [List.length_append, eTO, eTC, eNLH]
      omega
    rw [hlen]
    simp only [removeRegionsAux, hspan]
    have hdropE : ("<thinking>".toList ++ (X ++ ("</thinking>".toList
          ++ ("\n<html><body><p>".toList ++ tail)))).drop (X.length + 21)
        = "\n<html><body><p>".toList ++ tail := by
      have hassoc : "<thinking>".toList ++ (X ++ ("</thinking>".toList
            ++ ("\n<html><body><p>".toList ++ tail)))
          = ("<thinking>".toList ++ X ++ "</thinking>".toList)
            ++ ("\n<html><body><p>".toList ++ tail) := by
        simp [List.append_assoc]
      rw [hassoc]
      refine List.drop_left' ?_
      simp only [List.length_append, eTO, eTC]
      omega
    rw [hdropE]
    have hnomatch : matchSpan "<thinking>".toList "</thinking>".toList
        ("\n<html><body><p>".toList ++ tail) = none := by
      simp only [matchSpan]
      rw [hmapnl, findFrom_none_shape_nl "<thinking>".toList rfl _ htailLl
        (by decide) (by decide) (by decide)]
    rw [removeRegionsAux_no_match _ hnomatch]
    simp
  have hrem2 : removeRegions "<reasoning>".toList "</reasoning>".toList
      ("\n<html><body><p>".toList ++ tail) = "\n<html><body><p>".toList ++ tail := by
    refine removeRegions_no_match ?_
    simp only [matchSpan]
    rw [hmapnl, findFrom_none_shape_nl "<reasoning>".toList rfl _ htailLl
      (by decide) (by decide) (by decide)]
  have hallws : ∀ a ∈ "<html><body><p>".toList ++ tail, isJsWS a = false := by
    intro a ha
    rcases List.mem_append.mp ha with h1 | h2
    · exact (by decide : ∀ x ∈ "<html><body><p>".toList, isJsWS x = false) a h1
    · exact htailws a h2
  have htrim : jsTrim ("\n<html><body><p>".toList ++ tail)
      = "<html><body><p>".toList ++ tail := by
    have h1 : "\n<html><body><p>".toList ++ tail
        = '\n' :: ("<html><body><p>".toList ++ tail) := rfl
    rw [h1]
    exact jsTrim_newline hallws
  have hmaphbp : ("<html><body><p>".toList ++ tail).map Char.toLower
      = "<html><body><p>".toList ++ tail.map Char.toLower := by
    simp only [List.map_append, hmapHBP]
  have hdoc : matchWhole "<!doctype html>".toList "</html>".toList
      ("<html><body><p>".toList ++ tail) = none := by
    simp only [matchWhole, matchSpan]
    rw [hmaphbp, findFrom_none_shape_doc "<!doctype html>".toList rfl _ htailLl
      (by decide) (by decide) (by decide)]
  have hhtml : matchWhole "<html".toList "</html>".toList
      ("<html><body><p>".toList ++ tail) = none := by
    simp only [matchWhole, matchSpan]
    rw [hmaphbp, findFrom_of_isPre (isPre_append_left (tail.map Char.toLower)
      (show List.isPrefixOf "<html".toList "<html><body><p>".toList = true by decide))]
    dsimp only
    have hd5 : ("<html><body><p>".toList ++ tail.map Char.toLower).drop
          (0 + ("<html".toList).length)
        = "><body><p>".toList ++ tail.map Char.toLower := by
      rw [Nat.zero_add]
      rw [show "<html><body><p>".toList ++ tail.map Char.toLower
          = "<html".toList ++ ("><body><p>".toList ++ tail.map Char.toLower) from by
        rw [show "<html><body><p>".toList
            = "<html".toList ++ "><body><p>".toList from rfl, List.append_assoc]]
      exact List.drop_left _ _
    rw [hd5, findFrom_none_shape_after_html "</html>".toList rfl _ htailLl
      (by decide) (by decide)]
  have hbacktick : ∀ a ∈ "<html><body><p>".toList ++ tail.map Char.toLower, a ≠ '`' := by
    intro a ha
    rcases List.mem_append.mp ha with h1 | h2
    · exact (by decide : ∀ x ∈ "<html><body><p>".toList, x ≠ '`') a h1
    · exact htailLb a h2
  have hfence1 : matchInner "```html".toList "```".toList
      ("<html><body><p>".toList ++ tail) = none := by
    simp only [matchInner, matchSpan]
    rw [hmaphbp, findFrom_none_anchored (show ("```html".toList).head? = some '`' from rfl)
      _ hbacktick]
  have hfence2 : matchInner "```".toList "```".toList
      ("<html><body><p>".toList ++ tail) = none := by
    simp only [matchInner, matchSpan]
    rw [hmaphbp, findFrom_none_anchored (show ("```".toList).head? = some '`' from rfl)
      _ hbacktick]
  have hocc_htmlclose : occurs "</html>".toList ("<html><body><p>".toList ++ tail) = false := by
    simp only [occurs]
    rw [findFrom_none_shape_doc "</html>".toList rfl _ htail1
      (by decide) (by decide) (by decide)]
    rfl
  have hocc_bodyclose : occurs "</body>".toList ("<html><body><p>".toList ++ tail) = false := by
    simp only [occurs]
    rw [findFrom_none_shape_doc "</body>".toList rfl _ htail1
      (by decide) (by decide) (by decide)]
    rfl
  have hocc_body : occurs "<body".toList ("<html><body><p>".toList ++ tail) = true := by
    simp only [occurs]
    refine findFrom_isSome_of_drop 6 ?_
    have hd : ("<html><body><p>".toList ++ tail).drop 6
        = "<body><p>".toList ++ tail := by
      rw [show "<html><body><p>".toList ++ tail
          = "<html>".toList ++ ("<body><p>".toList ++ tail) from by
        rw [show "<html><body><p>".toList
            = "<html>".toList ++ "<body><p>".toList from rfl, List.append_assoc]]
      exact List.drop_left' rfl
    rw [hd]
    exact isPre_append_left tail
      (show List.isPrefixOf "<body".toList "<body><p>".toList = true by decide)
  have hocc_html : occurs "<html".toList ("<html><body><p>".toList ++ tail) = true := by
    simp only [occurs]
    rw [findFrom_of_isPre (isPre_append_left tail
      (show List.isPrefixOf "<html".toList "<html><body><p>".toList = true by decide))]
    rfl
  have hstarts : lineStartsHtml ("<html><body><p>".toList ++ tail) = true := by
    simp only [lineStartsHtml]
    rw [jsTrim_eq_self_of_all hallws,
        isPre_append_left tail
          (show List.isPrefixOf "<html".toList "<html><body><p>".toList = true by decide)]
    simp
  have hsplitL : splitOnChar '\n' ("<html><body><p>".toList ++ tail)
      = ["<html><body><p>".toList ++ tail] := by
    refine splitOnChar_eq_single ?_
    intro a ha
    rcases List.mem_append.mp ha with h1 | h2
    · exact (by decide : ∀ x ∈ "<html><body><p>".toList, x ≠ '\n') a h1
    · exact htailn a h2
  have hscan : lineScan ("<html><body><p>".toList ++ tail)
      = "<html><body><p>".toList ++ tail ++ "\n</body>".toList ++ "\n</html>".toList := by
    simp only [lineScan, hsplitL]
    rw [List.findIdx?_cons, hstarts]
    simp only [if_true, List.drop_zero, lastIdxWith, List.reverse_cons,
      List.reverse_nil, List.nil_append, List.findIdx?_cons, hocc_htmlclose,
      List.findIdx?_nil, Option.map_none', intercalate_single]
    rw [jsTrim_eq_self_of_all hallws]
    rw [hocc_body, hocc_bodyclose, hocc_html]
    simp [List.append_assoc]
  have hnbnh : "\n</body>".toList ++ "\n</html>".toList = "\n</body>\n</html>".toList := rfl
  have hextract : extractHTMLFromContent ("<thinking>".toList ++ (X ++ ("</thinking>".toList
        ++ ("\n<html><body><p>".toList ++ tail))))
      = "<html><body><p>".toList ++ tail ++ "\n</body>\n</html>".toList := by
    simp only [extractHTMLFromContent, hrem1, hrem2, htrim, hdoc, hhtml,
      hfence1, hfence2, hscan]
    simp [List.append_assoc, hnbnh]
  simp only [parseAndUpdateContent, hinner, hreason, hcode, hextract]
  simp [List.append_assoc]

/-- Witness for C7 at the spec's concrete buffer. -/
theorem claim_c7_extraction_fallback_witness :
    ((∀ a ∈ "Use a pastel palette".toList, a.toLower ≠ '<')
      ∧ (∀ a ∈ "hi".toList, a ≠ '<' ∧ isJsWS a = false)
      ∧ (∀ a ∈ "hi".toList, a.toLower ≠ '<' ∧ a.toLower ≠ '`'))
    ∧ parseAndUpdateContent ("<thinking>".toList ++ "Use a pastel palette".toList
        ++ "</thinking>".toList ++ "\n<html><body><p>".toList ++ "hi".toList)
      = ("🤔 **Thinking**\n".toList ++ jsTrim "Use a pastel palette".toList
          ++ "\n\n".toList,
         "<html><body><p>".toList ++ "hi".toList ++ "\n</body>\n</html>".toList) :=
  ⟨⟨by decide, by decide, by decide⟩,
   claim_c7_extraction_fallback "Use a pastel palette".toList "hi".toList
     (by decide) (by decide) (by decide)⟩
